import Mathlib

/-!
Verification of the gioire routing tool core: a shallow embedding of
`app/services/ortools_solver_service.py` and
`app/services/ortools_result_service.py`, with theorems checking the
natural-language specification against the embedded code.
-/

namespace GioireRouting

/-! ### Result Persister (ortools_result_service.process_ortools_result)

The persister receives a loosely-typed JSON payload; optional fields are
modelled with `Option`, Python truthiness with explicit helpers.  The
database table `run.routing_results` is modelled as a list of rows, and
`insert` appends to it. -/

structure PStop where
  sequence : Option Int
  event_type : Option String
  arrival_at : Option Int
  departure_at : Option Int
  passengers : Option Int
  task_id : Option Int
deriving DecidableEq

structure PRoute where
  vehicle_id : Option Int
  stops : List PStop
deriving DecidableEq

structure RPayload where
  run_id : Option Int
  routes : Option (List PRoute)
deriving DecidableEq

structure RRow where
  run_id : Int
  vehicle_id : Int
  task_id : Int
  sequence : Int
  arrival_at : Int
  departure_at : Option Int
  passengers : Int
  event_type : String
  meta_json : PStop
deriving DecidableEq

inductive PResult where
  | error (message : String)
  | ok (inserted : Nat)
deriving DecidableEq

/-- Python truthiness of an optional integer: `None` and `0` are falsy. -/
def intTruthy : Option Int → Bool
  | none => false
  | some v => v != 0

/-- Python truthiness of an optional string: `None` and `""` are falsy. -/
def strTruthy : Option String → Bool
  | none => false
  | some s => !s.isEmpty

/-- `s.get("event_type") == "TASK" and s.get("task_id")` (route anchoring filter). -/
def isTaskStop (s : PStop) : Bool :=
  s.event_type == some "TASK" && intTruthy s.task_id

/-- The body of the per-stop loop: either the row appended to `insert_rows`,
or `none` when the stop is skipped
(`sequence is None or not event_type or not arrival_at`, or `not task_id`). -/
def rowOfStop (run_id vehicle_id : Int) (s : PStop) : Option RRow :=
  match s.sequence with
  | none => none
  | some seq =>
    if !strTruthy s.event_type then none
    else if !intTruthy s.arrival_at then none
    else if !intTruthy s.task_id then none
    else
      some {
        run_id := run_id
        vehicle_id := vehicle_id
        task_id := s.task_id.getD 0
        sequence := seq
        arrival_at := s.arrival_at.getD 0
        departure_at := s.departure_at
        passengers := s.passengers.getD 0
        event_type := s.event_type.getD ""
        meta_json := s }

/-- The body of the per-route loop: rows contributed by one route.  A route
with a falsy `vehicle_id`, an empty stop list, or no anchoring TASK stops is
skipped entirely. -/
def rowsOfRoute (run_id : Int) (r : PRoute) : List RRow :=
  if !intTruthy r.vehicle_id then []
  else if r.stops.isEmpty then []
  else if (r.stops.filter isTaskStop).isEmpty then []
  else r.stops.filterMap (rowOfStop run_id (r.vehicle_id.getD 0))

/-- `insert_rows` accumulated over all routes, in route order. -/
def flatRows (run_id : Int) : List PRoute → List RRow
  | [] => []
  | r :: rest => rowsOfRoute run_id r ++ flatRows run_id rest

/-- `process_ortools_result`, with the `run.routing_results` table threaded
explicitly: the result is the table after the call plus the returned status.
The only table operation performed is `insert` (append). -/
def process_ortools_result (db : List RRow) (p : RPayload) : List RRow × PResult :=
  if !intTruthy p.run_id || (p.routes.getD []).isEmpty then
    (db, .error "Invalid OR-Tools result payload (missing run_id or routes)")
  else
    let rows := flatRows (p.run_id.getD 0) (p.routes.getD [])
    if rows.isEmpty then (db, .error "No valid routing_results rows to insert")
    else (db ++ rows, .ok rows.length)

/-- Number of stored rows carrying a given run identifier. -/
def countRun (db : List RRow) (r : Int) : Nat :=
  (db.filter (fun row => row.run_id == r)).length

theorem countRun_append (a b : List RRow) (r : Int) :
    countRun (a ++ b) r = countRun a r + countRun b r := by
  simp [countRun, List.filter_append]

theorem process_appends (db : List RRow) (p : RPayload) :
    ∃ rs, (process_ortools_result db p).1 = db ++ rs ∧
      (process_ortools_result (db ++ rs) p).1 = (db ++ rs) ++ rs := by
  unfold process_ortools_result
  by_cases h1 : (!intTruthy p.run_id || (p.routes.getD []).isEmpty) = true
  · exact ⟨[], by simp [h1]⟩
  · simp only [h1]
    by_cases h2 : (flatRows (p.run_id.getD 0) (p.routes.getD [])).isEmpty = true
    · exact ⟨[], by simp [h1, h2]⟩
    · exact ⟨flatRows (p.run_id.getD 0) (p.routes.getD []), by simp [h1, h2]⟩

/-- A concrete, fully valid persister payload for run 1: one route of one
vehicle with a single valid TASK stop. -/
def C1_payload : RPayload :=
  { run_id := some 1
    routes := some [{ vehicle_id := some 1
                      stops := [{ sequence := some 0, event_type := some "TASK",
                                  arrival_at := some 100, departure_at := some 100,
                                  passengers := some 1, task_id := some 7 }] }] }

/-- C1 counterexample: running `process_ortools_result` twice with the same
`run_id` does NOT leave the same stored row count as running it once — the
second run doubles the row count for run 1 (the code never deletes the
previously stored rows for the run). -/
theorem C1_counterexample :
    countRun ((process_ortools_result ((process_ortools_result [] C1_payload).1) C1_payload).1) 1 ≠
      countRun ((process_ortools_result [] C1_payload).1) 1 := by
  decide

/-- C1 (amended): the Result Persister is NOT idempotent per run: it never
deletes previously stored rows; every call appends the rows computed from the
payload alone, so running `process_ortools_result` twice with the same payload
appends the same rows twice, and the stored row count for any run identifier
after two runs (from an empty table) is exactly twice the count after one. -/
theorem C1_amended_theorem (p : RPayload) (r : Int) :
    (∃ rs, (process_ortools_result [] p).1 = rs ∧
      (process_ortools_result rs p).1 = rs ++ rs) ∧
    countRun ((process_ortools_result ((process_ortools_result [] p).1) p).1) r =
      2 * countRun ((process_ortools_result [] p).1) r := by
  obtain ⟨rs, h1, h2⟩ := process_appends [] p
  simp only [List.nil_append] at h1 h2
  refine ⟨⟨rs, h1, h2⟩, ?_⟩
  rw [h1, h2, countRun_append]
  omega

/-- C10: the Result Persister filters by truthiness: (a) a payload whose
`run_id` is 0 or missing, or whose routes list is empty or missing, yields an
error result with the stored table unchanged; (b) a stop whose `task_id` is 0
or missing, or whose `arrival_at` equals 0, contributes no row; (c) a route
with no TASK stops contributes no rows at all. -/
theorem C10_theorem :
    (∀ (db : List RRow) (p : RPayload),
      intTruthy p.run_id = false ∨ p.routes.getD [] = [] →
      process_ortools_result db p =
        (db, .error "Invalid OR-Tools result payload (missing run_id or routes)")) ∧
    (∀ (rid vid : Int) (s : PStop),
      s.task_id = none ∨ s.task_id = some 0 ∨ s.arrival_at = some 0 →
      rowOfStop rid vid s = none) ∧
    (∀ (rid : Int) (r : PRoute), r.stops.filter isTaskStop = [] →
      rowsOfRoute rid r = []) := by
  refine ⟨?_, ?_, ?_⟩
  · intro db p h
    have hc : (!intTruthy p.run_id || (p.routes.getD []).isEmpty) = true := by
      rcases h with h | h
      · simp [h]
      · simp [h]
    simp [process_ortools_result, hc]
  · intro rid vid s h
    unfold rowOfStop
    cases s.sequence with
    | none => rfl
    | some q => rcases h with h | h | h <;> simp [h, intTruthy]
  · intro rid r h
    unfold rowsOfRoute
    simp [h]

/-- C10 witness: the three parts of `C10_theorem` at concrete inputs. -/
theorem C10_witness :
    process_ortools_result [] ⟨some 0, some []⟩ =
      ([], .error "Invalid OR-Tools result payload (missing run_id or routes)") ∧
    rowOfStop 1 4 ⟨some 0, some "TASK", some 0, some 100, some 0, some 7⟩ = none ∧
    rowsOfRoute 1 ⟨some 3, []⟩ = [] :=
  ⟨C10_theorem.1 [] ⟨some 0, some []⟩ (Or.inl (by decide)),
   C10_theorem.2.1 1 4 ⟨some 0, some "TASK", some 0, some 100, some 0, some 7⟩
     (Or.inr (Or.inr rfl)),
   C10_theorem.2.2 1 ⟨some 3, []⟩ (by decide)⟩

/-! ### OR-Tools Solver service (ortools_solver_service.py)

Data model.  A raw task is the loosely-typed dict from the request payload;
its `window` holds two possibly-missing bounds (`t.get("window") or
[None, None]`).  A parsed task is the dict produced by `_parse_tasks`. -/

structure RawTask where
  task_id : Int
  task_type : String
  node_index : Int
  user_id : Int
  pair_key : Option String
  window : Option Int × Option Int
deriving DecidableEq

structure Task where
  task_id : Int
  task_type : String
  node_index : Int
  user_id : Int
  pair_key : Option String
  window_start : Int
  window_end : Int
deriving DecidableEq

structure Vehicle where
  vehicle_id : Int
  vehicle_name : Option String
  capacity : Int
  start_index : Int
  end_index : Int
deriving DecidableEq

structure Payload where
  time_matrix : List (List Int)
  vehicles : List Vehicle
  tasks : List RawTask
  buckets : List Int
  facility_name : Option String
  date : Option String
deriving DecidableEq

/-- ASCII uppercase of one character, as Python `str.upper()` acts on the
ASCII task-type strings used here. -/
def upperChar (c : Char) : Char :=
  if c.isLower then Char.ofNat (c.toNat - 32) else c

/-- Python `str.upper()` on an ASCII string. -/
def pyUpper (s : String) : String := String.mk (s.data.map upperChar)

/-- The loop body of `_parse_tasks`: a task whose window is missing either
bound is skipped (`continue`), otherwise the normalized task dict is built
(`task_type` uppercased). -/
def parseOne (t : RawTask) : Option Task :=
  match t.window with
  | (some ws, some we) =>
      some { task_id := t.task_id, task_type := pyUpper t.task_type,
             node_index := t.node_index, user_id := t.user_id,
             pair_key := t.pair_key, window_start := ws, window_end := we }
  | _ => none

def _parse_tasks (p : Payload) : List Task := p.tasks.filterMap parseOne

/-- Running minimum of `x :: xs` (Python `min` over a nonempty sequence). -/
def listMin : Int → List Int → Int
  | x, [] => x
  | x, y :: ys => listMin (min x y) ys

/-- Running maximum of `x :: xs` (Python `max` over a nonempty sequence). -/
def listMax : Int → List Int → Int
  | x, [] => x
  | x, y :: ys => listMax (max x y) ys

/-- `_relative_time_base`: earliest task window start minus a one-hour
buffer; fallback to the first bucket; fallback 0. -/
def _relative_time_base (tasks : List Task) (buckets : List Int) : Int :=
  match tasks with
  | [] =>
    match buckets with
    | [] => 0
    | b :: _ => b
  | t :: ts => listMin t.window_start (ts.map (·.window_start)) - 3600

def _task_delta (task_type : String) : Int :=
  if task_type = "PICK" then 1
  else if task_type = "DROP" then -1
  else 0

/-! Validation (`_validate_inputs`).  The user-count loop indexes the inner
dict `{"PICK": 0, "DROP": 0}` with the task type, so a type other than PICK
or DROP raises a `KeyError`; the whole validator is therefore modeled in
`Except`, where `.error` is an uncaught Python exception and `.ok (some msg)`
is a returned validation message. -/

def squareError (n : Nat) : List (List Int) → Option String
  | [] => none
  | row :: rest =>
    if row.length ≠ n then some "time_matrix must be NxN" else squareError n rest

def vehicleRangeMsg (si ei : Int) (n : Nat) : String :=
  "vehicle start/end index out of range: start_index=" ++ toString si ++
    ", end_index=" ++ toString ei ++ ", n=" ++ toString n

def vehicleRangeError (n : Nat) : List Vehicle → Option String
  | [] => none
  | v :: vs =>
    if v.start_index < 0 ∨ (n : Int) ≤ v.start_index ∨
        v.end_index < 0 ∨ (n : Int) ≤ v.end_index then
      some (vehicleRangeMsg v.start_index v.end_index n)
    else vehicleRangeError n vs

def taskRangeMsg (tid ni : Int) (n : Nat) : String :=
  "task node_index out of range: task_id=" ++ toString tid ++
    " node_index=" ++ toString ni ++ " n=" ++ toString n

def taskRangeError (n : Nat) : List Task → Option String
  | [] => none
  | t :: ts =>
    if t.node_index < 0 ∨ (n : Int) ≤ t.node_index then
      some (taskRangeMsg t.task_id t.node_index n)
    else taskRangeError n ts

/-- One entry of the `users` defaultdict: PICK and DROP counts per user. -/
structure UserCount where
  uid : Int
  picks : Nat
  drops : Nat
deriving DecidableEq

/-- `users[uid][task_type] += 1` for a PICK/DROP type; insertion order of
user ids is preserved, as in a Python dict. -/
def bumpIn (m : List UserCount) (uid : Int) (tt : String) : List UserCount :=
  match m with
  | [] => [⟨uid, if tt = "PICK" then 1 else 0, if tt = "DROP" then 1 else 0⟩]
  | c :: rest =>
    if c.uid = uid then
      ⟨c.uid, c.picks + (if tt = "PICK" then 1 else 0),
        c.drops + (if tt = "DROP" then 1 else 0)⟩ :: rest
    else c :: bumpIn rest uid tt

/-- The per-task step of the counting loop: indexing the inner dict with an
unknown task type raises `KeyError`. -/
def bumpCounts (m : List UserCount) (uid : Int) (tt : String) :
    Except String (List UserCount) :=
  if tt = "PICK" ∨ tt = "DROP" then .ok (bumpIn m uid tt)
  else .error ("KeyError: " ++ tt)

def countUsersFrom (m : List UserCount) : List Task → Except String (List UserCount)
  | [] => .ok m
  | t :: ts =>
    match bumpCounts m t.user_id t.task_type with
    | .error e => .error e
    | .ok m2 => countUsersFrom m2 ts

def countUsers (ts : List Task) : Except String (List UserCount) :=
  countUsersFrom [] ts

def pairKeyMsg (uid : Int) : String :=
  "user_id=" ++ toString uid ++
    " has multiple PICK/DROP tasks, but pair_key is missing. pair_key is required to pair correctly."

/-- The check loop over `users.items()`: a user with more than one PICK or
more than one DROP must have a truthy `pair_key` on every one of its tasks. -/
def userPairError (tasks : List Task) : List UserCount → Option String
  | [] => none
  | c :: rest =>
    if 1 < c.picks ∨ 1 < c.drops then
      if (tasks.filter (fun t => t.user_id == c.uid)).all
          (fun t => strTruthy t.pair_key) then
        userPairError tasks rest
      else some (pairKeyMsg c.uid)
    else userPairError tasks rest

def _validate_inputs (time_matrix : List (List Int)) (vehicles : List Vehicle)
    (tasks : List Task) : Except String (Option String) :=
  if time_matrix.isEmpty then .ok (some "time_matrix missing")
  else
    match squareError time_matrix.length time_matrix with
    | some e => .ok (some e)
    | none =>
      if vehicles.isEmpty then .ok (some "vehicles missing")
      else if tasks.isEmpty then .ok (some "tasks missing")
      else
        match vehicleRangeError time_matrix.length vehicles with
        | some e => .ok (some e)
        | none =>
          match taskRangeError time_matrix.length tasks with
          | some e => .ok (some e)
          | none =>
            match countUsers tasks with
            | .error e => .error e
            | .ok m => .ok (userPairError tasks m)

/-! ### Routing-node layout (solve_ortools, lines 164-193)

Python dicts are modeled as association lists built with insert-or-overwrite
(`dput`), which preserves first-insertion order exactly as a Python dict
does; lookup is first-match (keys are unique by construction). -/

def dput {α β : Type} [BEq α] (m : List (α × β)) (k : α) (v : β) : List (α × β) :=
  if m.any (fun p => p.1 == k) then m.map (fun p => if p.1 == k then (k, v) else p)
  else m ++ [(k, v)]

def dictOfList {α β : Type} [BEq α] (kv : List (α × β)) : List (α × β) :=
  kv.foldl (fun m p => dput m p.1 p.2) []

/-- Insert into a strictly ascending list, skipping duplicates. -/
def insertSorted (x : Int) : List Int → List Int
  | [] => [x]
  | y :: ys =>
    if x < y then x :: y :: ys
    else if x = y then y :: ys
    else y :: insertSorted x ys

/-- `sorted(set(xs))`: the distinct elements of `xs` in ascending order. -/
def sortedDedup (xs : List Int) : List Int :=
  xs.foldl (fun acc x => insertSorted x acc) []

/-- `sorted(set(phys_starts + phys_ends))`: the depot physical nodes. -/
def depotPhysNodes (vehicles : List Vehicle) : List Int :=
  sortedDedup (vehicles.map (·.start_index) ++ vehicles.map (·.end_index))

/-- First index of `x` in the list (`depot_rnode_of_phys` built by
`enumerate` over the distinct sorted depot nodes). -/
def posOf (x : Int) : List Int → Nat
  | [] => 0
  | y :: ys => if x = y then 0 else posOf x ys + 1

/-- The `(task_id, depot_count + i)` pairs in task input order. -/
def rnodePairs (depotCount i : Nat) : List Task → List (Int × Nat)
  | [] => []
  | t :: ts => (t.task_id, depotCount + i) :: rnodePairs depotCount (i + 1) ts

/-- `task_rnode_of_task_id`: each task is assigned its own routing node
after the depot block, in task input order (a repeated `task_id` overwrites
the earlier dict entry, as in Python). -/
def taskRnodeOfTaskId (tasks : List Task) (depotCount : Nat) : List (Int × Nat) :=
  dictOfList (rnodePairs depotCount 0 tasks)

/-- `task_id_of_rnode`: the inverted dict. -/
def taskIdOfRnode (trn : List (Int × Nat)) : List (Nat × Int) :=
  dictOfList (trn.map (fun p => (p.2, p.1)))

/-- `routing_to_phys`: depot physical nodes first, then each task's
physical node in task input order. -/
def routingToPhys (ds : List Int) (tasks : List Task) : List Int :=
  ds ++ tasks.map (·.node_index)

/-- `tasks_by_id` dict. -/
def tasksById (tasks : List Task) : List (Int × Task) :=
  dictOfList (tasks.map (fun t => (t.task_id, t)))

/-! ### Pairing (_build_pairs_by_pair_key) -/

/-- One inner dict of `by_key`: the PICK and DROP slots for a pair key. -/
structure PD where
  pick : Option Int
  drop : Option Int
deriving DecidableEq

def dupdKey (m : List (String × PD)) (k : String) (f : PD → PD) : List (String × PD) :=
  if m.any (fun p => p.1 == k) then m.map (fun p => if p.1 == k then (p.1, f p.2) else p)
  else m ++ [(k, f ⟨none, none⟩)]

/-- Loop body filling `by_key`: tasks without a truthy pair key and tasks
whose type is neither PICK nor DROP are skipped; `by_key[key][tt] = task_id`
overwrites an earlier same-type entry for the key. -/
def byKeyStep (m : List (String × PD)) (t : Task) : List (String × PD) :=
  match t.pair_key with
  | none => m
  | some key =>
    if key.isEmpty then m
    else if t.task_type = "PICK" then dupdKey m key (fun pd => { pd with pick := some t.task_id })
    else if t.task_type = "DROP" then dupdKey m key (fun pd => { pd with drop := some t.task_id })
    else m

def byKey (tasks : List Task) : List (String × PD) := tasks.foldl byKeyStep []

/-- `_build_pairs_by_pair_key`: for each pair key whose inner dict holds both
a PICK and a DROP entry, and whose two task ids appear in the task-node map,
emit `(pickup_task_node, drop_task_node)`; otherwise skip (logged, not fatal). -/
def _build_pairs_by_pair_key (tasks : List Task) (trn : List (Int × Nat)) :
    List (Nat × Nat) :=
  (byKey tasks).filterMap (fun kpd =>
    match kpd.2.pick, kpd.2.drop with
    | some pid, some did =>
      match List.lookup pid trn, List.lookup did trn with
      | some pn, some dn => some (pn, dn)
      | _, _ => none
    | _, _ => none)

/-! ### Assembled constraint model and the black-box solver

The external OR-Tools engine is a black box: `solve_ortools` receives it as
an oracle from the assembled model to an optional solution.  A solution
gives, per vehicle, the solver-assigned cumulative times at its start and
end and the ordered list of routing nodes visited strictly between them,
each with its cumulative time. -/

def DEFAULT_FIXED_VEHICLE_COST : Int := 1000000

def MAX_SOLVE_SECONDS : Int := 30

def matEntry (tm : List (List Int)) (i j : Int) : Int :=
  (((tm.get? i.toNat).getD []).get? j.toNat).getD 0

/-- The transit callback tabulated over routing nodes:
`time_matrix[routing_to_phys[from]][routing_to_phys[to]]`. -/
def transitMatrix (tm : List (List Int)) (rtp : List Int) : List (List Int) :=
  rtp.map (fun pf => rtp.map (fun pt => matEntry tm pf pt))

/-- `rel_windows`: per task id, the window rebased by `base_time`. -/
def relWindows (tasks : List Task) (base : Int) : List (Int × Int × Int) :=
  dictOfList (tasks.map (fun t => (t.task_id, t.window_start - base, t.window_end - base)))

/-- `max(w[1] for w in rel_windows.values())` (0 when empty — unreachable,
validation guarantees at least one task). -/
def latestEnd : List (Int × Int × Int) → Int
  | [] => 0
  | w :: ws => listMax w.2.2 (ws.map (·.2.2))

/-- Per-task-node hard window constraints. -/
def nodeWindows (tasks : List Task) (trn : List (Int × Nat))
    (rw : List (Int × Int × Int)) : List (Nat × Int × Int) :=
  tasks.filterMap (fun t =>
    match List.lookup t.task_id trn, List.lookup t.task_id rw with
    | some rnode, some w => some (rnode, w)
    | _, _ => none)

/-- `task_by_rnode` dict. -/
def taskByRnode (tasks : List Task) (trn : List (Int × Nat)) : List (Nat × Task) :=
  dictOfList (tasks.filterMap (fun t =>
    (List.lookup t.task_id trn).map (fun r => (r, t))))

structure SolverInput where
  total_nodes : Nat
  num_vehicles : Nat
  starts : List Nat
  ends : List Nat
  transit : List (List Int)
  windows : List (Nat × Int × Int)
  slackMax : Int
  horizon : Int
  demands : List (Nat × Int)
  capacities : List Int
  pairs : List (Nat × Nat)
  fixedVehicleCost : Int
  timeLimit : Int
deriving DecidableEq

/-- The constraint model handed to the external solver, assembled exactly as
`solve_ortools` does after validation passes. -/
def modelOf (p : Payload) : SolverInput :=
  let ts := _parse_tasks p
  let base := _relative_time_base ts p.buckets
  let ds := depotPhysNodes p.vehicles
  let dc := ds.length
  let trn := taskRnodeOfTaskId ts dc
  let rtp := routingToPhys ds ts
  let rw := relWindows ts base
  { total_nodes := dc + ts.length
    num_vehicles := p.vehicles.length
    starts := p.vehicles.map (fun v => posOf v.start_index ds)
    ends := p.vehicles.map (fun v => posOf v.end_index ds)
    transit := transitMatrix p.time_matrix rtp
    windows := nodeWindows ts trn rw
    slackMax := 6 * 3600
    horizon := latestEnd rw + 3600
    demands := (taskByRnode ts trn).map (fun q => (q.1, _task_delta q.2.task_type))
    capacities := p.vehicles.map (·.capacity)
    pairs := _build_pairs_by_pair_key ts trn
    fixedVehicleCost := DEFAULT_FIXED_VEHICLE_COST
    timeLimit := MAX_SOLVE_SECONDS }

/-- One vehicle's assigned path: cumulative time at the start node, the
routing nodes visited strictly between start and end (each with its
cumulative time), and the cumulative time at the end node. -/
structure VisitPlan where
  startTime : Int
  visits : List (Nat × Int)
  endTime : Int
deriving DecidableEq

structure Solution where
  plans : List VisitPlan
deriving DecidableEq

/-! ### Solution reconstruction (solve_ortools, lines 285-368) -/

inductive EventType where
  | DEPART
  | TASK
  | ARRIVE
deriving DecidableEq

structure Stop where
  sequence : Nat
  event_type : EventType
  node_index : Int
  task_id : Option Int
  arrival_at : Int
  departure_at : Int
  passengers : Int
deriving DecidableEq

structure Route where
  vehicle_id : Int
  vehicle_name : Option String
  stops : List Stop
deriving DecidableEq

/-- The mutable loop state of the route walk: the running sequence counter,
the running passenger counter, `task_ids_in_route`, and the emitted stops. -/
structure WalkState where
  seq : Nat
  cur : Int
  taskIds : List Int
  stops : List Stop
deriving DecidableEq

def physOf (rtp : List Int) (r : Nat) : Int := (rtp.get? r).getD 0

/-- One iteration of the while loop: a depot routing node is passed over; a
task routing node bumps the sequence and passenger counters and appends a
TASK stop.  A routing node missing from `task_id_of_rnode` or a task id
missing from `tasks_by_id` raises `KeyError`. -/
def stepVisit (base : Int) (dc : Nat) (tIdOfR : List (Nat × Int))
    (tbid : List (Int × Task)) (st : WalkState) (v : Nat × Int) :
    Except String WalkState :=
  if v.1 < dc then .ok st
  else
    match List.lookup v.1 tIdOfR with
    | none => .error "KeyError: task_id_of_rnode"
    | some tid =>
      match List.lookup tid tbid with
      | none => .error "KeyError: tasks_by_id"
      | some task =>
        let seq := st.seq + 1
        let cur := st.cur + _task_delta task.task_type
        .ok ⟨seq, cur, st.taskIds ++ [tid],
          st.stops ++ [⟨seq, .TASK, task.node_index, some tid,
            base + v.2, base + v.2, cur⟩]⟩

def walkVisits (base : Int) (dc : Nat) (tIdOfR : List (Nat × Int))
    (tbid : List (Int × Task)) (st : WalkState) :
    List (Nat × Int) → Except String WalkState
  | [] => .ok st
  | v :: vs =>
    match stepVisit base dc tIdOfR tbid st v with
    | .error e => .error e
    | .ok st2 => walkVisits base dc tIdOfR tbid st2 vs

/-- The per-vehicle body of the output loop: emit the DEPART anchor, walk the
visits, drop the vehicle if it visited no task, otherwise back-fill the
DEPART `task_id` with the first visited task id and append the ARRIVE stop
carrying the last visited task id and the final occupancy. -/
def buildVehicleRoute (base : Int) (dc : Nat) (rtp : List Int)
    (tIdOfR : List (Nat × Int)) (tbid : List (Int × Task))
    (startR endR : Nat) (v : Vehicle) (plan : VisitPlan) :
    Except String (Option Route) :=
  let depart : Stop := ⟨0, .DEPART, physOf rtp startR, none,
    base + plan.startTime, base + plan.startTime, 0⟩
  match walkVisits base dc tIdOfR tbid ⟨0, 0, [], [depart]⟩ plan.visits with
  | .error e => .error e
  | .ok st =>
    match st.taskIds with
    | [] => .ok none
    | firstId :: restIds =>
      let lastId := (firstId :: restIds).getLastD firstId
      let arrive : Stop := ⟨st.seq + 1, .ARRIVE, physOf rtp endR, some lastId,
        base + plan.endTime, base + plan.endTime, st.cur⟩
      .ok (some ⟨v.vehicle_id, v.vehicle_name,
        (match st.stops with
         | [] => []
         | s :: rest => { s with task_id := some firstId } :: rest) ++ [arrive]⟩)

def reconstructRoutes (base : Int) (ds rtp : List Int)
    (tIdOfR : List (Nat × Int)) (tbid : List (Int × Task)) :
    List (Vehicle × VisitPlan) → Except String (List Route)
  | [] => .ok []
  | (v, plan) :: rest =>
    match buildVehicleRoute base ds.length rtp tIdOfR tbid
        (posOf v.start_index ds) (posOf v.end_index ds) v plan with
    | .error e => .error e
    | .ok none => reconstructRoutes base ds rtp tIdOfR tbid rest
    | .ok (some r) =>
      match reconstructRoutes base ds rtp tIdOfR tbid rest with
      | .error e => .error e
      | .ok out => .ok (r :: out)

inductive SolveResult where
  | error (message : String)
  | ok (run_id : Option Int) (facility_name : Option String)
       (date : Option String) (base_time : Int) (routes : List Route)
deriving DecidableEq

/-- `solve_ortools`, with the external engine as an oracle.  An `Except.error`
result models an uncaught Python exception; `.ok (.error msg)` is the
structured `{"status": "error", "message": msg}` dict. -/
def solve_ortools (p : Payload) (run_id : Option Int)
    (solver : SolverInput → Option Solution) : Except String SolveResult :=
  let ts := _parse_tasks p
  match _validate_inputs p.time_matrix p.vehicles ts with
  | .error e => .error e
  | .ok (some msg) => .ok (.error msg)
  | .ok none =>
    let base := _relative_time_base ts p.buckets
    let ds := depotPhysNodes p.vehicles
    let trn := taskRnodeOfTaskId ts ds.length
    match solver (modelOf p) with
    | none => .ok (.error "no feasible solution")
    | some sol =>
      match reconstructRoutes base ds (routingToPhys ds ts) (taskIdOfRnode trn)
          (tasksById ts) (p.vehicles.zip sol.plans) with
      | .error e => .error e
      | .ok routes => .ok (.ok run_id p.facility_name p.date base routes)

/-! ### Characterizing the route walk

`resolveVisit`/`resolveVisits` compute, for a visit list, the sequence of
task-node visits the walk will emit: a depot node contributes nothing, a
task node contributes its task id, task record and cumulative time, and a
failed dict lookup makes the whole walk raise.  `walkVisits` is then a pure
fold described by `emitTaskStops`. -/

def resolveVisit (dc : Nat) (tIdOfR : List (Nat × Int)) (tbid : List (Int × Task))
    (v : Nat × Int) : Option (List (Int × Task × Int)) :=
  if v.1 < dc then some []
  else
    match List.lookup v.1 tIdOfR with
    | none => none
    | some tid =>
      match List.lookup tid tbid with
      | none => none
      | some task => some [(tid, task, v.2)]

def resolveVisits (dc : Nat) (tIdOfR : List (Nat × Int)) (tbid : List (Int × Task)) :
    List (Nat × Int) → Option (List (Int × Task × Int))
  | [] => some []
  | v :: vs =>
    match resolveVisit dc tIdOfR tbid v, resolveVisits dc tIdOfR tbid vs with
    | some x, some xs => some (x ++ xs)
    | _, _ => none

/-- The passenger delta of one resolved task visit. -/
def rvDelta (e : Int × Task × Int) : Int := _task_delta e.2.1.task_type

/-- Sum of the passenger deltas of a resolved visit sequence. -/
def deltaSum (rs : List (Int × Task × Int)) : Int := (rs.map rvDelta).sum

/-- Occupancy after the first `k` task visits (the running counter seeded at
0 and replayed in visit order). -/
def prefixOcc (rs : List (Int × Task × Int)) (k : Nat) : Int := deltaSum (rs.take k)

/-- The TASK stops the walk emits for a resolved visit sequence, starting
from sequence counter `seq0` and occupancy `cur0`. -/
def emitTaskStops (base : Int) (seq0 : Nat) (cur0 : Int) :
    List (Int × Task × Int) → List Stop
  | [] => []
  | e :: rest =>
    ⟨seq0 + 1, .TASK, e.2.1.node_index, some e.1, base + e.2.2, base + e.2.2,
      cur0 + _task_delta e.2.1.task_type⟩ ::
      emitTaskStops base (seq0 + 1) (cur0 + _task_delta e.2.1.task_type) rest

theorem emitTaskStops_length (base : Int) (seq0 : Nat) (cur0 : Int)
    (rs : List (Int × Task × Int)) :
    (emitTaskStops base seq0 cur0 rs).length = rs.length := by
  induction rs generalizing seq0 cur0 with
  | nil => rfl
  | cons e rest ih => simp [emitTaskStops, ih]

theorem emitTaskStops_get (base : Int) (rs : List (Int × Task × Int))
    (k : Nat) (e : Int × Task × Int) (seq0 : Nat) (cur0 : Int)
    (h : rs.get? k = some e) :
    (emitTaskStops base seq0 cur0 rs).get? k =
      some ⟨seq0 + k + 1, .TASK, e.2.1.node_index, some e.1,
        base + e.2.2, base + e.2.2, cur0 + prefixOcc rs (k + 1)⟩ := by
  induction rs generalizing k seq0 cur0 with
  | nil => simp at h
  | cons e0 rest ih =>
    cases k with
    | zero =>
      simp only [List.get?_cons_zero, Option.some.injEq] at h
      subst h
      simp [emitTaskStops, prefixOcc, deltaSum, rvDelta, List.take_succ_cons]
    | succ k =>
      simp only [List.get?_cons_succ] at h
      have hpre : prefixOcc (e0 :: rest) (k + 1 + 1) =
          _task_delta e0.2.1.task_type + prefixOcc rest (k + 1) := by
        simp [prefixOcc, deltaSum, rvDelta, List.take_succ_cons]
      have hih := ih k (seq0 + 1) (cur0 + _task_delta e0.2.1.task_type) h
      simp only [emitTaskStops, List.get?_cons_succ, hih, Option.some.injEq,
        Stop.mk.injEq, hpre]
      simp only [true_and, and_true]
      repeat' apply And.intro
      all_goals omega

theorem walkVisits_spec (base : Int) (dc : Nat) (tIdOfR : List (Nat × Int))
    (tbid : List (Int × Task)) (visits : List (Nat × Int))
    (rs : List (Int × Task × Int))
    (hres : resolveVisits dc tIdOfR tbid visits = some rs) (st : WalkState) :
    walkVisits base dc tIdOfR tbid st visits =
      .ok ⟨st.seq + rs.length, st.cur + deltaSum rs,
        st.taskIds ++ rs.map (·.1),
        st.stops ++ emitTaskStops base st.seq st.cur rs⟩ := by
  induction visits generalizing rs st with
  | nil =>
    simp only [resolveVisits, Option.some.injEq] at hres
    subst hres
    simp [walkVisits, deltaSum, emitTaskStops]
  | cons v vs ih =>
    simp only [resolveVisits] at hres
    cases hv : resolveVisit dc tIdOfR tbid v with
    | none => rw [hv] at hres; simp at hres
    | some x =>
      rw [hv] at hres
      cases hvs : resolveVisits dc tIdOfR tbid vs with
      | none => rw [hvs] at hres; simp at hres
      | some xs =>
        rw [hvs] at hres
        simp only [Option.some.injEq] at hres
        subst hres
        unfold resolveVisit at hv
        by_cases hlt : v.1 < dc
        · simp only [hlt, if_true, Option.some.injEq] at hv
          subst hv
          simp only [walkVisits, stepVisit, hlt, if_true, List.nil_append]
          exact ih xs hvs st
        · rw [if_neg hlt] at hv
          cases htid : List.lookup v.1 tIdOfR with
          | none => simp [htid] at hv
          | some tid =>
            simp only [htid] at hv
            cases htask : List.lookup tid tbid with
            | none => simp [htask] at hv
            | some task =>
              simp only [htask, Option.some.injEq] at hv
              subst hv
              simp only [walkVisits, stepVisit, hlt, if_false, htid, htask]
              rw [ih xs hvs]
              simp only [Except.ok.injEq, WalkState.mk.injEq, emitTaskStops,
                deltaSum, rvDelta, List.map_cons, List.sum_cons,
                List.length_cons, List.append_assoc, List.cons_append,
                List.nil_append, List.singleton_append]
              simp only [true_and, and_true]
              repeat' apply And.intro
              all_goals try omega
              all_goals simp only [List.append_eq, List.nil_append]

theorem prefixOcc_succ (rs : List (Int × Task × Int)) (k : Nat)
    (e : Int × Task × Int) (h : rs.get? k = some e) :
    prefixOcc rs (k + 1) = prefixOcc rs k + rvDelta e := by
  unfold prefixOcc deltaSum
  rw [List.get?_eq_getElem?] at h
  rw [List.take_succ, h]
  simp

theorem prefixOcc_length (rs : List (Int × Task × Int)) :
    prefixOcc rs rs.length = deltaSum rs := by
  unfold prefixOcc
  rw [List.take_length]

theorem emitTaskStops_arr_dep (base : Int) (rs : List (Int × Task × Int)) :
    ∀ (seq0 : Nat) (cur0 : Int), ∀ s ∈ emitTaskStops base seq0 cur0 rs,
      s.arrival_at = s.departure_at ∧ s.event_type = EventType.TASK := by
  induction rs with
  | nil => intro seq0 cur0 s hs; simp [emitTaskStops] at hs
  | cons e rest ih =>
    intro seq0 cur0 s hs
    simp only [emitTaskStops, List.mem_cons] at hs
    rcases hs with hs | hs
    · subst hs; exact ⟨rfl, rfl⟩
    · exact ih _ _ s hs

theorem emitTaskStops_map_seq (base : Int) (rs : List (Int × Task × Int)) :
    ∀ (seq0 : Nat) (cur0 : Int),
      (emitTaskStops base seq0 cur0 rs).map (·.sequence) =
        (List.range rs.length).map (fun k => seq0 + k + 1) := by
  induction rs with
  | nil => intro seq0 cur0; simp [emitTaskStops]
  | cons e rest ih =>
    intro seq0 cur0
    simp only [emitTaskStops, List.map_cons, List.length_cons,
      List.range_succ_eq_map, List.map_map, ih]
    refine List.cons_eq_cons.mpr ⟨by omega, ?_⟩
    apply List.map_congr_left
    intro a ha
    simp only [Function.comp_apply]
    omega

theorem emitTaskStops_mem (base : Int) (seq0 : Nat) (cur0 : Int)
    (rs : List (Int × Task × Int)) (s : Stop)
    (hs : s ∈ emitTaskStops base seq0 cur0 rs) :
    ∃ k e, rs.get? k = some e ∧ s.passengers = cur0 + prefixOcc rs (k + 1) := by
  obtain ⟨k, hk⟩ := List.mem_iff_get?.1 hs
  have hklen : k < rs.length := by
    obtain ⟨h, _⟩ := List.get?_eq_some.1 hk
    rwa [emitTaskStops_length] at h
  obtain ⟨e, he⟩ : ∃ e, rs.get? k = some e := by
    cases hre : rs.get? k with
    | none => rw [List.get?_eq_none] at hre; omega
    | some e => exact ⟨e, rfl⟩
  have hget := emitTaskStops_get base rs k e seq0 cur0 he
  rw [hget] at hk
  injection hk with hk
  exact ⟨k, e, he, by rw [← hk]⟩

/-- A vehicle whose walk resolves to no task visit yields no route
(`continue  # unused vehicle`). -/
theorem buildVehicleRoute_none (base : Int) (dc : Nat) (rtp : List Int)
    (tIdOfR : List (Nat × Int)) (tbid : List (Int × Task)) (startR endR : Nat)
    (v : Vehicle) (plan : VisitPlan)
    (hres : resolveVisits dc tIdOfR tbid plan.visits = some []) :
    buildVehicleRoute base dc rtp tIdOfR tbid startR endR v plan = .ok none := by
  unfold buildVehicleRoute
  simp only [walkVisits_spec base dc tIdOfR tbid plan.visits [] hres,
    emitTaskStops, deltaSum, List.map_nil, List.sum_nil, List.length_nil,
    List.append_nil, List.nil_append, Nat.add_zero, add_zero]

/-- A vehicle whose walk resolves to at least one task visit yields exactly
the DEPART anchor (task id back-filled with the first visited task's id),
the TASK stops in visit order, and the ARRIVE stop with the last visited
task id and the final occupancy. -/
theorem buildVehicleRoute_some (base : Int) (dc : Nat) (rtp : List Int)
    (tIdOfR : List (Nat × Int)) (tbid : List (Int × Task)) (startR endR : Nat)
    (v : Vehicle) (plan : VisitPlan) (e0 : Int × Task × Int)
    (rest : List (Int × Task × Int))
    (hres : resolveVisits dc tIdOfR tbid plan.visits = some (e0 :: rest)) :
    buildVehicleRoute base dc rtp tIdOfR tbid startR endR v plan =
      .ok (some ⟨v.vehicle_id, v.vehicle_name,
        ⟨0, .DEPART, physOf rtp startR, some e0.1,
          base + plan.startTime, base + plan.startTime, 0⟩ ::
        emitTaskStops base 0 0 (e0 :: rest) ++
        [⟨(e0 :: rest).length + 1, .ARRIVE, physOf rtp endR,
          some (((e0 :: rest).map (·.1)).getLastD e0.1),
          base + plan.endTime, base + plan.endTime, deltaSum (e0 :: rest)⟩]⟩) := by
  unfold buildVehicleRoute
  simp only [walkVisits_spec base dc tIdOfR tbid plan.visits (e0 :: rest) hres,
    List.map_cons, List.nil_append, List.singleton_append,
    List.length_cons, Nat.zero_add, zero_add]

theorem stops_get_zero (d arr : Stop) (em : List Stop) :
    ((d :: em) ++ [arr]).get? 0 = some d := by
  rw [List.get?_append (by simp)]
  rfl

theorem stops_get_succ (d arr : Stop) (em : List Stop) (k : Nat)
    (hk : k < em.length) :
    ((d :: em) ++ [arr]).get? (k + 1) = em.get? k := by
  rw [List.get?_append (by simpa using Nat.succ_lt_succ hk), List.get?_cons_succ]

theorem get_some_lt_length {α : Type} (l : List α) (k : Nat) (e : α)
    (h : l.get? k = some e) : k < l.length :=
  (List.get?_eq_some.1 h).1

theorem stops_getLast (d a : Stop) (em : List Stop) :
    ((d :: em) ++ [a]).getLast? = some a := by
  induction em generalizing d with
  | nil => rfl
  | cons e rest ih =>
    have h := ih e
    simp only [List.cons_append] at h ⊢
    rw [List.getLast?_cons_cons]
    exact h

/-- C3: in every route the reconstruction emits, `passengers` is a running
counter seeded at 0 at the DEPART stop and updated strictly in visit order
by `_task_delta` (+1 per PICK, −1 per DROP); when the solution honors the
capacity dimension (all prefix occupancies non-negative), no stop has
negative passengers; and any task visit occurring earlier in the visit order
— in particular the PICK of a pickup/delivery pair served before its DROP on
this vehicle — gets a strictly smaller `sequence` than a later one. -/
theorem C3_theorem (base : Int) (dc : Nat) (rtp : List Int)
    (tIdOfR : List (Nat × Int)) (tbid : List (Int × Task)) (startR endR : Nat)
    (v : Vehicle) (plan : VisitPlan) (rs : List (Int × Task × Int))
    (route : Route)
    (hres : resolveVisits dc tIdOfR tbid plan.visits = some rs)
    (hb : buildVehicleRoute base dc rtp tIdOfR tbid startR endR v plan =
      .ok (some route)) :
    (_task_delta "PICK" = 1 ∧ _task_delta "DROP" = -1) ∧
    (∃ s0, route.stops.get? 0 = some s0 ∧ s0.passengers = 0 ∧
      s0.event_type = EventType.DEPART) ∧
    (∀ k e, rs.get? k = some e → ∃ s, route.stops.get? (k + 1) = some s ∧
      s.task_id = some e.1 ∧ s.sequence = k + 1 ∧
      s.passengers = prefixOcc rs k + _task_delta e.2.1.task_type ∧
      s.passengers = prefixOcc rs (k + 1)) ∧
    ((∀ k, k < rs.length + 1 → 0 ≤ prefixOcc rs k) →
      ∀ s ∈ route.stops, 0 ≤ s.passengers) ∧
    (∀ (tsAll : List Task) (trn : List (Int × Nat)) (pn dn : Nat)
       (ptid dtid : Int) (i j : Nat) (ei ej : Int × Task × Int),
      (pn, dn) ∈ _build_pairs_by_pair_key tsAll trn →
      List.lookup pn tIdOfR = some ptid → List.lookup dn tIdOfR = some dtid →
      i < j → rs.get? i = some ei → rs.get? j = some ej →
      ei.1 = ptid → ej.1 = dtid →
      ∃ si sj, route.stops.get? (i + 1) = some si ∧
        route.stops.get? (j + 1) = some sj ∧
        si.task_id = some ptid ∧ sj.task_id = some dtid ∧
        si.sequence < sj.sequence) := by
  cases rs with
  | nil =>
    rw [buildVehicleRoute_none base dc rtp tIdOfR tbid startR endR v plan hres]
      at hb
    simp at hb
  | cons e0 rest =>
    rw [buildVehicleRoute_some base dc rtp tIdOfR tbid startR endR v plan
      e0 rest hres] at hb
    simp only [Except.ok.injEq, Option.some.injEq] at hb
    subst hb
    have hstop : ∀ k e, (e0 :: rest).get? k = some e →
        (Route.stops ⟨v.vehicle_id, v.vehicle_name,
          ⟨0, .DEPART, physOf rtp startR, some e0.1,
            base + plan.startTime, base + plan.startTime, 0⟩ ::
          emitTaskStops base 0 0 (e0 :: rest) ++
          [⟨(e0 :: rest).length + 1, .ARRIVE, physOf rtp endR,
            some (((e0 :: rest).map (·.1)).getLastD e0.1),
            base + plan.endTime, base + plan.endTime,
            deltaSum (e0 :: rest)⟩]⟩).get? (k + 1) =
          some ⟨0 + k + 1, .TASK, e.2.1.node_index, some e.1,
            base + e.2.2, base + e.2.2, 0 + prefixOcc (e0 :: rest) (k + 1)⟩ := by
      intro k e hke
      have hk : k < (emitTaskStops base 0 0 (e0 :: rest)).length := by
        rw [emitTaskStops_length]
        exact get_some_lt_length _ k e hke
      show ((_ :: emitTaskStops base 0 0 (e0 :: rest)) ++ [_]).get? (k + 1) = _
      rw [stops_get_succ _ _ _ k hk]
      exact emitTaskStops_get base (e0 :: rest) k e 0 0 hke
    refine ⟨by decide, ⟨_, by apply stops_get_zero, rfl, rfl⟩, ?_, ?_, ?_⟩
    · intro k e hke
      refine ⟨_, hstop k e hke, rfl, by dsimp only; omega, ?_, by dsimp only; omega⟩
      rw [prefixOcc_succ (e0 :: rest) k e hke]
      show (0 : Int) + _ = _
      unfold rvDelta
      ring
    · intro hcap s hs
      simp only [Route.stops, List.mem_append, List.mem_cons,
        List.mem_singleton, List.not_mem_nil, or_false] at hs
      rcases hs with (hs | hs) | hs
      · subst hs
        simp
      · obtain ⟨k, e, hke, hp⟩ := emitTaskStops_mem base 0 0 (e0 :: rest) s hs
        have hk : k < (e0 :: rest).length := get_some_lt_length _ k e hke
        have := hcap (k + 1) (by omega)
        rw [hp]
        omega
      · subst hs
        have := hcap (e0 :: rest).length (by omega)
        rw [prefixOcc_length] at this
        simpa using this
    · intro tsAll trn pn dn ptid dtid i j ei ej _ _ _ hij hi hj hpi hpj
      refine ⟨_, _, hstop i ei hi, hstop j ej hj, ?_, ?_, ?_⟩
      · simp [hpi]
      · simp [hpj]
      · dsimp only
        omega

/-! Concrete scenario shared by the reconstruction witnesses: one vehicle,
a paired PICK (task 7, node 5) and DROP (task 8, node 6), depot node 0. -/

def WitTaskP : Task := ⟨7, "PICK", 5, 1, some "K", 1000, 2000⟩

def WitTaskD : Task := ⟨8, "DROP", 6, 1, some "K", 1100, 2100⟩

def WitVehicle : Vehicle := ⟨10, none, 4, 0, 0⟩

def WitPlan : VisitPlan := ⟨0, [(1, 50), (2, 60)], 70⟩

def WitRs : List (Int × Task × Int) := [(7, WitTaskP, 50), (8, WitTaskD, 60)]

def WitRoute : Route :=
  ⟨10, none,
    [⟨0, .DEPART, 0, some 7, 0, 0, 0⟩,
     ⟨1, .TASK, 5, some 7, 50, 50, 1⟩,
     ⟨2, .TASK, 6, some 8, 60, 60, 0⟩,
     ⟨3, .ARRIVE, 0, some 8, 70, 70, 0⟩]⟩

/-- C3 witness: `C3_theorem` on the concrete scenario: all stops have
non-negative passengers and the paired PICK stop precedes the DROP stop. -/
theorem C3_witness :
    (∀ s ∈ WitRoute.stops, 0 ≤ s.passengers) ∧
    (∃ si sj, WitRoute.stops.get? 1 = some si ∧ WitRoute.stops.get? 2 = some sj ∧
      si.task_id = some 7 ∧ sj.task_id = some 8 ∧ si.sequence < sj.sequence) := by
  have h := C3_theorem 0 1 [0, 5, 6] [(1, 7), (2, 8)]
    [(7, WitTaskP), (8, WitTaskD)] 0 0 WitVehicle WitPlan WitRs WitRoute
    rfl rfl
  refine ⟨h.2.2.2.1 (by decide), ?_⟩
  obtain ⟨si, sj, h1, h2, h3, h4, h5⟩ :=
    h.2.2.2.2 [WitTaskP, WitTaskD] (taskRnodeOfTaskId [WitTaskP, WitTaskD] 1)
      1 2 7 8 0 1 (7, WitTaskP, 50) (8, WitTaskD, 60)
      (by decide) (by decide) (by decide) (by decide) (by decide) (by decide)
      rfl rfl
  exact ⟨si, sj, h1, h2, h3, h4, h5⟩

theorem listMin_le (xs : List Int) :
    ∀ x : Int, listMin x xs ≤ x ∧ ∀ y ∈ xs, listMin x xs ≤ y := by
  induction xs with
  | nil => intro x; exact ⟨le_refl x, by simp⟩
  | cons y ys ih =>
    intro x
    have h := ih (min x y)
    simp only [listMin]
    refine ⟨le_trans h.1 (min_le_left x y), ?_⟩
    intro z hz
    rcases List.mem_cons.1 hz with hz | hz
    · subst hz; exact le_trans h.1 (min_le_right x z)
    · exact h.2 z hz

theorem listMin_mem (xs : List Int) : ∀ x : Int, listMin x xs ∈ x :: xs := by
  induction xs with
  | nil => intro x; simp [listMin]
  | cons y ys ih =>
    intro x
    simp only [listMin]
    rcases min_choice x y with hm | hm <;> rw [hm]
    · rcases List.mem_cons.1 (ih x) with h | h
      · rw [h]; exact List.mem_cons_self x (y :: ys)
      · exact List.mem_cons_of_mem x (List.mem_cons_of_mem y h)
    · exact List.mem_cons_of_mem x (ih y)

/-- C4: the run-wide time base is the minimum task `window_start` minus 3600
when any task exists (attained at some task, and a lower bound on all tasks);
otherwise the first bucket; otherwise 0.  Every reconstructed stop's
`arrival_at` is `base_time` plus the solver's relative cumulative time at
that node (start cumul for DEPART, the visit cumul for each TASK stop, end
cumul for ARRIVE), so subtracting `base_time` recovers the relative value
exactly. -/
theorem C4_theorem :
    (∀ (tasks : List Task) (buckets : List Int), tasks ≠ [] →
      (∃ t ∈ tasks, _relative_time_base tasks buckets = t.window_start - 3600) ∧
      (∀ t ∈ tasks, _relative_time_base tasks buckets ≤ t.window_start - 3600)) ∧
    (∀ (b : Int) (bs : List Int), _relative_time_base [] (b :: bs) = b) ∧
    (_relative_time_base [] [] = 0) ∧
    (∀ (base : Int) (dc : Nat) (rtp : List Int) (tIdOfR : List (Nat × Int))
       (tbid : List (Int × Task)) (startR endR : Nat) (v : Vehicle)
       (plan : VisitPlan) (rs : List (Int × Task × Int)) (route : Route),
      resolveVisits dc tIdOfR tbid plan.visits = some rs →
      buildVehicleRoute base dc rtp tIdOfR tbid startR endR v plan =
        .ok (some route) →
      (∃ s0, route.stops.get? 0 = some s0 ∧
        s0.arrival_at = base + plan.startTime ∧
        s0.arrival_at - base = plan.startTime) ∧
      (∀ k e, rs.get? k = some e → ∃ s, route.stops.get? (k + 1) = some s ∧
        s.arrival_at = base + e.2.2 ∧ s.arrival_at - base = e.2.2) ∧
      (∃ sl, route.stops.getLast? = some sl ∧
        sl.arrival_at = base + plan.endTime ∧
        sl.arrival_at - base = plan.endTime)) := by
  refine ⟨?_, ?_, rfl, ?_⟩
  · intro tasks buckets hne
    cases tasks with
    | nil => exact absurd rfl hne
    | cons t ts =>
      simp only [_relative_time_base]
      constructor
      · have hmem := listMin_mem (ts.map (·.window_start)) t.window_start
        rcases List.mem_cons.1 hmem with h | h
        · exact ⟨t, List.mem_cons_self t ts, by rw [h]⟩
        · obtain ⟨t2, ht2, hw⟩ := List.mem_map.1 h
          exact ⟨t2, List.mem_cons_of_mem t ht2, by rw [← hw]⟩
      · intro t2 ht2
        have hle := listMin_le (ts.map (·.window_start)) t.window_start
        rcases List.mem_cons.1 ht2 with h | h
        · subst h; omega
        · have := hle.2 t2.window_start (List.mem_map.2 ⟨t2, h, rfl⟩)
          omega
  · intro b bs; rfl
  · intro base dc rtp tIdOfR tbid startR endR v plan rs route hres hb
    cases rs with
    | nil =>
      rw [buildVehicleRoute_none base dc rtp tIdOfR tbid startR endR v plan
        hres] at hb
      simp at hb
    | cons e0 rest =>
      rw [buildVehicleRoute_some base dc rtp tIdOfR tbid startR endR v plan
        e0 rest hres] at hb
      simp only [Except.ok.injEq, Option.some.injEq] at hb
      subst hb
      refine ⟨⟨_, stops_get_zero _ _ _, rfl, by dsimp only; omega⟩, ?_, ?_⟩
      · intro k e hke
        have hk : k < (emitTaskStops base 0 0 (e0 :: rest)).length := by
          rw [emitTaskStops_length]
          exact get_some_lt_length _ k e hke
        have hs : (((⟨0, .DEPART, physOf rtp startR, some e0.1,
            base + plan.startTime, base + plan.startTime, 0⟩ : Stop) ::
            emitTaskStops base 0 0 (e0 :: rest)) ++
            [(⟨(e0 :: rest).length + 1, .ARRIVE, physOf rtp endR,
              some (((e0 :: rest).map (·.1)).getLastD e0.1),
              base + plan.endTime, base + plan.endTime,
              deltaSum (e0 :: rest)⟩ : Stop)]).get? (k + 1) =
            some (⟨0 + k + 1, .TASK, e.2.1.node_index, some e.1,
              base + e.2.2, base + e.2.2,
              0 + prefixOcc (e0 :: rest) (k + 1)⟩ : Stop) := by
          rw [stops_get_succ _ _ _ k hk]
          exact emitTaskStops_get base (e0 :: rest) k e 0 0 hke
        exact ⟨_, hs, rfl, by dsimp only; omega⟩
      · exact ⟨_, stops_getLast _ _ _, rfl, by dsimp only; omega⟩

/-- C4 witness: `C4_theorem` on concrete inputs: the base for one task with
window start 1000 is −2600, attained and minimal; the fallback cases; and
the arrival timestamps of the concrete reconstructed route. -/
theorem C4_witness :
    (∃ t ∈ [WitTaskP, WitTaskD], _relative_time_base [WitTaskP, WitTaskD] [] =
      t.window_start - 3600) ∧
    (_relative_time_base [] [42] = 42) ∧
    (∃ s0, WitRoute.stops.get? 0 = some s0 ∧ s0.arrival_at = 0 + 0 ∧
      s0.arrival_at - 0 = 0) ∧
    (∃ sl, WitRoute.stops.getLast? = some sl ∧ sl.arrival_at = 0 + 70 ∧
      sl.arrival_at - 0 = 70) := by
  have h4 := C4_theorem.2.2.2 0 1 [0, 5, 6] [(1, 7), (2, 8)]
    [(7, WitTaskP), (8, WitTaskD)] 0 0 WitVehicle WitPlan WitRs WitRoute
    rfl rfl
  have ha := (C4_theorem.1 [WitTaskP, WitTaskD] [] (by decide)).1
  exact ⟨ha, C4_theorem.2.1 42 [], h4.1, h4.2.2⟩

theorem posOf_lt (x : Int) (l : List Int) (h : x ∈ l) : posOf x l < l.length := by
  induction l with
  | nil => simp at h
  | cons y ys ih =>
    simp only [posOf, List.length_cons]
    by_cases hxy : x = y
    · simp [hxy]
    · rw [if_neg hxy]
      rcases List.mem_cons.1 h with h2 | h2
      · exact absurd h2 hxy
      · have := ih h2
        omega

theorem get?_posOf (x : Int) (l : List Int) (h : x ∈ l) :
    l.get? (posOf x l) = some x := by
  induction l with
  | nil => simp at h
  | cons y ys ih =>
    simp only [posOf]
    by_cases hxy : x = y
    · rw [if_pos hxy, hxy]; rfl
    · rw [if_neg hxy, List.get?_cons_succ]
      rcases List.mem_cons.1 h with h2 | h2
      · exact absurd h2 hxy
      · exact ih h2

theorem physOf_posOf (x : Int) (ds : List Int) (ts : List Task) (h : x ∈ ds) :
    physOf (routingToPhys ds ts) (posOf x ds) = x := by
  unfold physOf routingToPhys
  rw [List.get?_append (posOf_lt x ds h), get?_posOf x ds h]
  rfl

theorem seq_range (n : Nat) :
    (((0 : Nat) :: (List.range n).map (fun k => 0 + k + 1)) ++ [n + 1]) =
      List.range (n + 2) := by
  rw [List.range_succ, List.range_succ_eq_map]
  simp only [List.cons_append]
  congr 1
  congr 1
  apply List.map_congr_left
  intro a ha
  omega

/-- C5: for every vehicle whose walk resolves, the reconstructed route is
exactly one DEPART stop (at the start routing node's physical node, task id
back-filled with the first visited task id), then one TASK stop per resolved
task visit in visit order, then one ARRIVE stop (last visited task id, final
occupancy); a vehicle with no task visit contributes no route (and is
skipped by `reconstructRoutes`); `arrival_at = departure_at` at every stop;
the sequence numbers are exactly `0, 1, 2, …` (0-based, strictly
increasing); and the DEPART/ARRIVE physical node of a depot node `x` in the
depot list is `x` itself. -/
theorem C5_theorem :
    (∀ (base : Int) (ds rtp : List Int) (tIdOfR : List (Nat × Int))
       (tbid : List (Int × Task)) (v : Vehicle) (plan : VisitPlan)
       (rps : List (Vehicle × VisitPlan)),
      resolveVisits ds.length tIdOfR tbid plan.visits = some [] →
      buildVehicleRoute base ds.length rtp tIdOfR tbid (posOf v.start_index ds)
        (posOf v.end_index ds) v plan = .ok none ∧
      reconstructRoutes base ds rtp tIdOfR tbid ((v, plan) :: rps) =
        reconstructRoutes base ds rtp tIdOfR tbid rps) ∧
    (∀ (base : Int) (dc : Nat) (rtp : List Int) (tIdOfR : List (Nat × Int))
       (tbid : List (Int × Task)) (startR endR : Nat) (v : Vehicle)
       (plan : VisitPlan) (e0 : Int × Task × Int)
       (rest : List (Int × Task × Int)),
      resolveVisits dc tIdOfR tbid plan.visits = some (e0 :: rest) →
      buildVehicleRoute base dc rtp tIdOfR tbid startR endR v plan =
        .ok (some ⟨v.vehicle_id, v.vehicle_name,
          ⟨0, .DEPART, physOf rtp startR, some e0.1,
            base + plan.startTime, base + plan.startTime, 0⟩ ::
          emitTaskStops base 0 0 (e0 :: rest) ++
          [⟨(e0 :: rest).length + 1, .ARRIVE, physOf rtp endR,
            some (((e0 :: rest).map (·.1)).getLastD e0.1),
            base + plan.endTime, base + plan.endTime,
            deltaSum (e0 :: rest)⟩]⟩)) ∧
    (∀ (base : Int) (dc : Nat) (rtp : List Int) (tIdOfR : List (Nat × Int))
       (tbid : List (Int × Task)) (startR endR : Nat) (v : Vehicle)
       (plan : VisitPlan) (rs : List (Int × Task × Int)) (route : Route),
      resolveVisits dc tIdOfR tbid plan.visits = some rs →
      buildVehicleRoute base dc rtp tIdOfR tbid startR endR v plan =
        .ok (some route) →
      (∀ s ∈ route.stops, s.arrival_at = s.departure_at) ∧
      route.stops.map (·.sequence) = List.range route.stops.length) ∧
    (∀ (x : Int) (ds : List Int) (ts : List Task), x ∈ ds →
      physOf (routingToPhys ds ts) (posOf x ds) = x) := by
  refine ⟨?_, ?_, ?_, ?_⟩
  · intro base ds rtp tIdOfR tbid v plan rps hres
    have hb0 := buildVehicleRoute_none base ds.length rtp tIdOfR tbid
      (posOf v.start_index ds) (posOf v.end_index ds) v plan hres
    exact ⟨hb0, by simp only [reconstructRoutes, hb0]⟩
  · intro base dc rtp tIdOfR tbid startR endR v plan e0 rest hres
    exact buildVehicleRoute_some base dc rtp tIdOfR tbid startR endR v plan
      e0 rest hres
  · intro base dc rtp tIdOfR tbid startR endR v plan rs route hres hb
    cases rs with
    | nil =>
      rw [buildVehicleRoute_none base dc rtp tIdOfR tbid startR endR v plan
        hres] at hb
      simp at hb
    | cons e0 rest =>
      rw [buildVehicleRoute_some base dc rtp tIdOfR tbid startR endR v plan
        e0 rest hres] at hb
      simp only [Except.ok.injEq, Option.some.injEq] at hb
      subst hb
      constructor
      · intro s hs
        simp only [Route.stops, List.mem_append, List.mem_cons,
          List.mem_singleton, List.not_mem_nil, or_false] at hs
        rcases hs with (hs | hs) | hs
        · subst hs; rfl
        · exact (emitTaskStops_arr_dep base (e0 :: rest) 0 0 s hs).1
        · subst hs; rfl
      · have hlen : (Route.stops ⟨v.vehicle_id, v.vehicle_name,
            ⟨0, .DEPART, physOf rtp startR, some e0.1,
              base + plan.startTime, base + plan.startTime, 0⟩ ::
            emitTaskStops base 0 0 (e0 :: rest) ++
            [⟨(e0 :: rest).length + 1, .ARRIVE, physOf rtp endR,
              some (((e0 :: rest).map (·.1)).getLastD e0.1),
              base + plan.endTime, base + plan.endTime,
              deltaSum (e0 :: rest)⟩]⟩).length = (e0 :: rest).length + 2 := by
          simp [emitTaskStops_length]
        rw [hlen]
        simp only [Route.stops, List.map_append, List.map_cons, List.map_nil,
          emitTaskStops_map_seq]
        exact seq_range ((e0 :: rest).length)
  · intro x ds ts h
    exact physOf_posOf x ds ts h

/-- C5 witness: `C5_theorem` on concrete inputs: a vehicle visiting only a
depot node yields no route and is skipped; the concrete paired scenario has
equal arrival/departure at every stop and sequences `0,1,2,3`; and the depot
physical-node round trip. -/
theorem C5_witness :
    (buildVehicleRoute 0 1 [0] [] [] (posOf 0 [0]) (posOf 0 [0]) WitVehicle
      ⟨0, [(0, 5)], 9⟩ = .ok none) ∧
    (∃ r, buildVehicleRoute 0 1 [0, 5, 6] [(1, 7), (2, 8)]
      [(7, WitTaskP), (8, WitTaskD)] 0 0 WitVehicle WitPlan = .ok (some r)) ∧
    (∀ s ∈ WitRoute.stops, s.arrival_at = s.departure_at) ∧
    WitRoute.stops.map (·.sequence) = List.range WitRoute.stops.length ∧
    physOf (routingToPhys [0] [WitTaskP]) (posOf 0 [0]) = 0 := by
  have h1 := (C5_theorem.1 0 [0] [0] [] [] WitVehicle ⟨0, [(0, 5)], 9⟩ [] rfl).1
  have h2 := C5_theorem.2.1 0 1 [0, 5, 6] [(1, 7), (2, 8)]
    [(7, WitTaskP), (8, WitTaskD)] 0 0 WitVehicle WitPlan
    (7, WitTaskP, 50) [(8, WitTaskD, 60)] rfl
  have h3 := C5_theorem.2.2.1 0 1 [0, 5, 6] [(1, 7), (2, 8)]
    [(7, WitTaskP), (8, WitTaskD)] 0 0 WitVehicle WitPlan WitRs WitRoute
    rfl rfl
  exact ⟨h1, ⟨_, h2⟩, h3.1, h3.2,
    C5_theorem.2.2.2 0 [0] [WitTaskP] (by decide)⟩

theorem mem_insertSorted (x z : Int) (l : List Int) :
    z ∈ insertSorted x l ↔ z = x ∨ z ∈ l := by
  induction l with
  | nil => simp [insertSorted]
  | cons y ys ih =>
    simp only [insertSorted]
    by_cases h1 : x < y
    · rw [if_pos h1]
      simp [List.mem_cons]
    · by_cases h2 : x = y
      · rw [if_neg h1, if_pos h2]
        subst h2
        simp only [List.mem_cons]
        tauto
      · rw [if_neg h1, if_neg h2]
        simp only [List.mem_cons, ih]
        tauto

theorem pairwise_insertSorted (x : Int) (l : List Int)
    (h : List.Pairwise (· < ·) l) :
    List.Pairwise (· < ·) (insertSorted x l) := by
  induction l with
  | nil => simp [insertSorted]
  | cons y ys ih =>
    simp only [insertSorted]
    rcases List.pairwise_cons.1 h with ⟨hy, hys⟩
    by_cases h1 : x < y
    · rw [if_pos h1]
      refine List.pairwise_cons.2 ⟨?_, h⟩
      intro z hz
      rcases List.mem_cons.1 hz with hz | hz
      · subst hz; exact h1
      · exact lt_trans h1 (hy z hz)
    · by_cases h2 : x = y
      · rw [if_neg h1, if_pos h2]; exact h
      · rw [if_neg h1, if_neg h2]
        refine List.pairwise_cons.2 ⟨?_, ih hys⟩
        intro z hz
        rcases (mem_insertSorted x z ys).1 hz with hz | hz
        · subst hz; omega
        · exact hy z hz

theorem sortedDedup_aux (xs : List Int) :
    ∀ acc : List Int, List.Pairwise (· < ·) acc →
      List.Pairwise (· < ·) (xs.foldl (fun a x => insertSorted x a) acc) ∧
      (∀ z, z ∈ xs.foldl (fun a x => insertSorted x a) acc ↔
        z ∈ acc ∨ z ∈ xs) := by
  induction xs with
  | nil =>
    intro acc hacc
    refine ⟨hacc, ?_⟩
    intro z
    simp
  | cons x xs ih =>
    intro acc hacc
    have h2 := ih (insertSorted x acc) (pairwise_insertSorted x acc hacc)
    refine ⟨h2.1, ?_⟩
    intro z
    rw [List.foldl_cons, h2.2 z, mem_insertSorted]
    simp only [List.mem_cons]
    tauto

theorem pairwise_depotPhysNodes (vs : List Vehicle) :
    List.Pairwise (· < ·) (depotPhysNodes vs) :=
  (sortedDedup_aux _ [] (by simp)).1

theorem mem_depotPhysNodes (vs : List Vehicle) (x : Int) :
    x ∈ depotPhysNodes vs ↔ ∃ v ∈ vs, v.start_index = x ∨ v.end_index = x := by
  unfold depotPhysNodes sortedDedup
  rw [(sortedDedup_aux _ [] (by simp)).2 x]
  simp only [List.not_mem_nil, false_or, List.mem_append, List.mem_map]
  constructor
  · rintro (⟨v, hv, he⟩ | ⟨v, hv, he⟩)
    · exact ⟨v, hv, Or.inl he⟩
    · exact ⟨v, hv, Or.inr he⟩
  · rintro ⟨v, hv, he | he⟩
    · exact Or.inl ⟨v, hv, he⟩
    · exact Or.inr ⟨v, hv, he⟩

theorem dictOfList_aux {α β : Type} [BEq α] [LawfulBEq α]
    (kv : List (α × β)) :
    ∀ acc : List (α × β), ((acc ++ kv).map Prod.fst).Nodup →
      kv.foldl (fun m p => dput m p.1 p.2) acc = acc ++ kv := by
  induction kv with
  | nil => intro acc h; simp
  | cons p rest ih =>
    intro acc h
    have hnot : (acc.any (fun q => q.1 == p.1)) = false := by
      by_contra hx
      have hx2 : acc.any (fun q => q.1 == p.1) = true := by
        cases hb : acc.any (fun q => q.1 == p.1)
        · exact absurd hb hx
        · rfl
      obtain ⟨q, hq, hqe⟩ := List.any_eq_true.1 hx2
      have hqeq : q.1 = p.1 := eq_of_beq hqe
      have hmap : (acc ++ p :: rest).map Prod.fst =
          acc.map Prod.fst ++ p.1 :: rest.map Prod.fst := by simp
      rw [hmap] at h
      have hdisj := (List.nodup_append.1 h).2.2
      exact hdisj (List.mem_map.2 ⟨q, hq, hqeq⟩) (List.mem_cons_self _ _)
    have hd : dput acc p.1 p.2 = acc ++ [(p.1, p.2)] := by
      unfold dput
      rw [hnot]
      rfl
    rw [List.foldl_cons]
    show rest.foldl (fun m q => dput m q.1 q.2) (dput acc p.1 p.2) = _
    rw [hd]
    have hnodup2 : (((acc ++ [(p.1, p.2)]) ++ rest).map Prod.fst).Nodup := by
      have : (acc ++ [(p.1, p.2)]) ++ rest = acc ++ p :: rest := by
        simp [List.append_assoc]
      rw [this]
      exact h
    rw [ih (acc ++ [(p.1, p.2)]) hnodup2]
    simp [List.append_assoc]

theorem dictOfList_eq_of_nodup {α β : Type} [BEq α] [LawfulBEq α]
    (kv : List (α × β)) (h : (kv.map Prod.fst).Nodup) :
    dictOfList kv = kv := by
  unfold dictOfList
  exact dictOfList_aux kv [] (by simpa using h)

theorem rnodePairs_fst (dc i : Nat) (ts : List Task) :
    (rnodePairs dc i ts).map Prod.fst = ts.map (·.task_id) := by
  induction ts generalizing i with
  | nil => rfl
  | cons t rest ih => simp [rnodePairs, ih]

theorem rnodePairs_snd_ge (dc i : Nat) (ts : List Task) :
    ∀ z ∈ (rnodePairs dc i ts).map Prod.snd, dc + i ≤ z := by
  induction ts generalizing i with
  | nil => simp [rnodePairs]
  | cons t rest ih =>
    intro z hz
    simp only [rnodePairs, List.map_cons, List.mem_cons] at hz
    rcases hz with hz | hz
    · omega
    · have := ih (i + 1) z hz
      omega

theorem rnodePairs_snd_nodup (dc i : Nat) (ts : List Task) :
    ((rnodePairs dc i ts).map Prod.snd).Nodup := by
  induction ts generalizing i with
  | nil => simp [rnodePairs]
  | cons t rest ih =>
    simp only [rnodePairs, List.map_cons]
    refine List.nodup_cons.2 ⟨?_, ih (i + 1)⟩
    intro hmem
    have := rnodePairs_snd_ge dc (i + 1) rest _ hmem
    omega

theorem rnodePairs_lookup_fwd (ts : List Task)
    (h : (ts.map (·.task_id)).Nodup) :
    ∀ (dc i j : Nat) (e : Task), ts.get? j = some e →
      List.lookup e.task_id (rnodePairs dc i ts) = some (dc + (i + j)) := by
  induction ts with
  | nil => intro dc i j e he; simp at he
  | cons t rest ih =>
    intro dc i j e he
    have hmc : (List.map (fun x => x.task_id) (t :: rest)).Nodup := h
    simp only [List.map_cons] at hmc
    obtain ⟨hhead, htail⟩ := List.nodup_cons.1 hmc
    cases j with
    | zero =>
      simp only [List.get?_cons_zero, Option.some.injEq] at he
      subst he
      simp [List.lookup, rnodePairs]
    | succ j =>
      simp only [List.get?_cons_succ] at he
      have hmem : e.task_id ∈ rest.map (·.task_id) := by
        have hemem : e ∈ rest := by
          rcases List.get?_eq_some.1 he with ⟨hlt, hget⟩
          rw [← hget]
          exact List.get_mem rest j hlt
        exact List.mem_map.2 ⟨e, hemem, rfl⟩
      have hne : (e.task_id == t.task_id) = false := by
        apply beq_eq_false_iff_ne.2
        intro hcontra
        rw [← hcontra] at hhead
        exact hhead hmem
      have h3 := ih htail dc (i + 1) j e he
      have harith : dc + (i + 1 + j) = dc + (i + (j + 1)) := by omega
      rw [harith] at h3
      simp only [rnodePairs, List.lookup, hne]
      exact h3

theorem rnodePairs_lookup_bwd (ts : List Task) :
    ∀ (dc i j : Nat) (e : Task), ts.get? j = some e →
      List.lookup (dc + (i + j))
        ((rnodePairs dc i ts).map (fun p => (p.2, p.1))) = some e.task_id := by
  induction ts with
  | nil => intro dc i j e he; simp at he
  | cons t rest ih =>
    intro dc i j e he
    cases j with
    | zero =>
      simp only [List.get?_cons_zero, Option.some.injEq] at he
      subst he
      simp [List.lookup, rnodePairs]
    | succ j =>
      simp only [List.get?_cons_succ] at he
      have hne : (dc + (i + (j + 1)) == dc + i) = false := by
        apply beq_eq_false_iff_ne.2
        omega
      have h3 := ih dc (i + 1) j e he
      have harith : dc + (i + 1 + j) = dc + (i + (j + 1)) := by omega
      rw [harith] at h3
      simp only [rnodePairs, List.map_cons, List.lookup, hne]
      exact h3

/-- Under distinct task ids, the task-node dict is exactly the enumerated
pair list. -/
theorem taskRnode_eq (ts : List Task) (dc : Nat)
    (h : (ts.map (·.task_id)).Nodup) :
    taskRnodeOfTaskId ts dc = rnodePairs dc 0 ts := by
  unfold taskRnodeOfTaskId
  apply dictOfList_eq_of_nodup
  rw [rnodePairs_fst]
  exact h

theorem taskIdOfRnode_eq (ts : List Task) (dc : Nat)
    (h : (ts.map (·.task_id)).Nodup) :
    taskIdOfRnode (taskRnodeOfTaskId ts dc) =
      (rnodePairs dc 0 ts).map (fun p => (p.2, p.1)) := by
  unfold taskIdOfRnode
  rw [taskRnode_eq ts dc h]
  apply dictOfList_eq_of_nodup
  have : ((rnodePairs dc 0 ts).map (fun p => (p.2, p.1))).map Prod.fst =
      (rnodePairs dc 0 ts).map Prod.snd := by
    rw [List.map_map]
    rfl
  rw [this]
  exact rnodePairs_snd_nodup dc 0 ts

/-- C6: the routing-node space layout is deterministic: the depot block is
the strictly ascending list of the distinct physical nodes used as any
vehicle's start or end; `routing_to_phys` is that block followed by each
task's physical node in task input order; under distinct task ids the task
id ↔ Task-node maps are mutually inverse (task `j` gets node
`depot_count + j`) and injective, so two distinct tasks — even at the same
physical location — are never collapsed into one routing node. -/
theorem C6_theorem (vs : List Vehicle) (ts : List Task) :
    List.Pairwise (· < ·) (depotPhysNodes vs) ∧
    (∀ x, x ∈ depotPhysNodes vs ↔
      ∃ v ∈ vs, v.start_index = x ∨ v.end_index = x) ∧
    (∀ i, i < (depotPhysNodes vs).length →
      (routingToPhys (depotPhysNodes vs) ts).get? i =
        (depotPhysNodes vs).get? i) ∧
    (∀ j e, ts.get? j = some e →
      (routingToPhys (depotPhysNodes vs) ts).get?
        ((depotPhysNodes vs).length + j) = some e.node_index) ∧
    ((ts.map (·.task_id)).Nodup →
      (∀ j e, ts.get? j = some e →
        List.lookup e.task_id
          (taskRnodeOfTaskId ts (depotPhysNodes vs).length) =
          some ((depotPhysNodes vs).length + j) ∧
        List.lookup ((depotPhysNodes vs).length + j)
          (taskIdOfRnode (taskRnodeOfTaskId ts (depotPhysNodes vs).length)) =
          some e.task_id) ∧
      (∀ j k ej ek, ts.get? j = some ej → ts.get? k = some ek → j ≠ k →
        List.lookup ej.task_id
          (taskRnodeOfTaskId ts (depotPhysNodes vs).length) ≠
        List.lookup ek.task_id
          (taskRnodeOfTaskId ts (depotPhysNodes vs).length))) := by
  refine ⟨pairwise_depotPhysNodes vs, mem_depotPhysNodes vs, ?_, ?_, ?_⟩
  · intro i hi
    unfold routingToPhys
    exact List.get?_append hi
  · intro j e he
    unfold routingToPhys
    rw [List.get?_append_right (by omega)]
    have : (depotPhysNodes vs).length + j - (depotPhysNodes vs).length = j := by
      omega
    rw [this, List.get?_map, he]
    rfl
  · intro hnodup
    have hfwd : ∀ j e, ts.get? j = some e →
        List.lookup e.task_id
          (taskRnodeOfTaskId ts (depotPhysNodes vs).length) =
          some ((depotPhysNodes vs).length + j) := by
      intro j e he
      rw [taskRnode_eq ts _ hnodup]
      have := rnodePairs_lookup_fwd ts hnodup (depotPhysNodes vs).length 0 j e he
      simpa using this
    refine ⟨?_, ?_⟩
    · intro j e he
      refine ⟨hfwd j e he, ?_⟩
      rw [taskIdOfRnode_eq ts _ hnodup]
      have := rnodePairs_lookup_bwd ts (depotPhysNodes vs).length 0 j e he
      simpa using this
    · intro j k ej ek hj hk hjk
      rw [hfwd j ej hj, hfwd k ek hk]
      intro hcontra
      simp only [Option.some.injEq] at hcontra
      omega

/-- C6 witness: `C6_theorem` on two tasks sharing physical node 5: depot
block `[0, 1]`, tasks get distinct routing nodes 2 and 3 with inverse
lookups. -/
theorem C6_witness :
    (List.Pairwise (· < ·) (depotPhysNodes [⟨10, none, 4, 1, 0⟩])) ∧
    (List.lookup 7 (taskRnodeOfTaskId
      [⟨7, "PICK", 5, 1, none, 0, 9⟩, ⟨8, "PICK", 5, 2, none, 0, 9⟩] 2) =
        some 2) ∧
    (List.lookup 8 (taskRnodeOfTaskId
      [⟨7, "PICK", 5, 1, none, 0, 9⟩, ⟨8, "PICK", 5, 2, none, 0, 9⟩] 2) =
        some 3) ∧
    (List.lookup 3 (taskIdOfRnode (taskRnodeOfTaskId
      [⟨7, "PICK", 5, 1, none, 0, 9⟩, ⟨8, "PICK", 5, 2, none, 0, 9⟩] 2)) =
        some 8) := by
  have h := C6_theorem [⟨10, none, 4, 1, 0⟩]
    [⟨7, "PICK", 5, 1, none, 0, 9⟩, ⟨8, "PICK", 5, 2, none, 0, 9⟩]
  have hdc : (depotPhysNodes [(⟨10, none, 4, 1, 0⟩ : Vehicle)]).length = 2 := by
    decide
  have h5 := h.2.2.2.2 (by decide)
  have h0 := h5.1 0 ⟨7, "PICK", 5, 1, none, 0, 9⟩ rfl
  have h1 := h5.1 1 ⟨8, "PICK", 5, 2, none, 0, 9⟩ rfl
  rw [hdc] at h0 h1
  exact ⟨h.1, h0.1, h1.1, h1.2⟩

/-! ### Validation lemmas -/

/-- Number of PICK tasks of a user among the parsed tasks. -/
def picksOf (ts : List Task) (uid : Int) : Nat :=
  (ts.filter (fun t => t.user_id == uid && t.task_type == "PICK")).length

/-- Number of DROP tasks of a user among the parsed tasks. -/
def dropsOf (ts : List Task) (uid : Int) : Nat :=
  (ts.filter (fun t => t.user_id == uid && t.task_type == "DROP")).length

def getPicks : List UserCount → Int → Nat
  | [], _ => 0
  | c :: rest, uid => if c.uid = uid then c.picks else getPicks rest uid

def getDrops : List UserCount → Int → Nat
  | [], _ => 0
  | c :: rest, uid => if c.uid = uid then c.drops else getDrops rest uid

theorem squareError_none (n : Nat) (tm : List (List Int))
    (h : squareError n tm = none) : ∀ row ∈ tm, row.length = n := by
  induction tm with
  | nil => simp
  | cons row rest ih =>
    intro r hr
    simp only [squareError] at h
    by_cases hl : row.length ≠ n
    · rw [if_pos hl] at h; exact absurd h (by simp)
    · rw [if_neg hl] at h
      push_neg at hl
      rcases List.mem_cons.1 hr with hr | hr
      · subst hr; exact hl
      · exact ih h r hr

theorem vehicleRangeError_none (n : Nat) (vs : List Vehicle)
    (h : vehicleRangeError n vs = none) :
    ∀ v ∈ vs, ¬(v.start_index < 0 ∨ (n : Int) ≤ v.start_index ∨
      v.end_index < 0 ∨ (n : Int) ≤ v.end_index) := by
  induction vs with
  | nil => simp
  | cons v rest ih =>
    intro w hw
    simp only [vehicleRangeError] at h
    by_cases hc : v.start_index < 0 ∨ (n : Int) ≤ v.start_index ∨
        v.end_index < 0 ∨ (n : Int) ≤ v.end_index
    · rw [if_pos hc] at h; exact absurd h (by simp)
    · rw [if_neg hc] at h
      rcases List.mem_cons.1 hw with hw | hw
      · subst hw; exact hc
      · exact ih h w hw

theorem taskRangeError_none (n : Nat) (ts : List Task)
    (h : taskRangeError n ts = none) :
    ∀ t ∈ ts, ¬(t.node_index < 0 ∨ (n : Int) ≤ t.node_index) := by
  induction ts with
  | nil => simp
  | cons t rest ih =>
    intro w hw
    simp only [taskRangeError] at h
    by_cases hc : t.node_index < 0 ∨ (n : Int) ≤ t.node_index
    · rw [if_pos hc] at h; exact absurd h (by simp)
    · rw [if_neg hc] at h
      rcases List.mem_cons.1 hw with hw | hw
      · subst hw; exact hc
      · exact ih h w hw

theorem bumpIn_uids (m : List UserCount) (uid : Int) (tt : String) :
    (bumpIn m uid tt).map (·.uid) = m.map (·.uid) ∨
    (bumpIn m uid tt).map (·.uid) = m.map (·.uid) ++ [uid] := by
  induction m with
  | nil => right; rfl
  | cons c rest ih =>
    simp only [bumpIn]
    by_cases hc : c.uid = uid
    · rw [if_pos hc]; left; simp
    · rw [if_neg hc]
      rcases ih with h | h
      · left; simp [h]
      · right; simp [h]

theorem bumpIn_nodup (m : List UserCount) (uid : Int) (tt : String)
    (h : (m.map (·.uid)).Nodup) :
    ((bumpIn m uid tt).map (·.uid)).Nodup := by
  induction m with
  | nil => simp [bumpIn]
  | cons c rest ih =>
    obtain ⟨hhead, htail⟩ := by
      simpa only [List.map_cons, List.nodup_cons] using h
    simp only [bumpIn]
    by_cases hc : c.uid = uid
    · rw [if_pos hc]
      simp only [List.map_cons, List.nodup_cons]
      exact ⟨hhead, htail⟩
    · rw [if_neg hc]
      simp only [List.map_cons, List.nodup_cons]
      refine ⟨?_, ih htail⟩
      intro hmem
      rcases bumpIn_uids rest uid tt with hu | hu
      · rw [hu] at hmem; exact hhead hmem
      · rw [hu] at hmem
        rcases List.mem_append.1 hmem with hmem | hmem
        · exact hhead hmem
        · simp only [List.mem_singleton] at hmem
          exact hc hmem

theorem getPicks_bumpIn (m : List UserCount) (uid : Int) (tt : String)
    (uid2 : Int) :
    getPicks (bumpIn m uid tt) uid2 =
      getPicks m uid2 + (if uid2 = uid ∧ tt = "PICK" then 1 else 0) := by
  induction m with
  | nil =>
    simp only [bumpIn, getPicks]
    by_cases h1 : uid = uid2
    · subst h1
      by_cases h2 : tt = "PICK" <;> simp [h2]
    · have h3 : ¬(uid2 = uid ∧ tt = "PICK") := fun hc => h1 hc.1.symm
      simp [h1, h3]
  | cons c rest ih =>
    simp only [bumpIn]
    by_cases hc : c.uid = uid
    · rw [if_pos hc]
      simp only [getPicks]
      by_cases h1 : c.uid = uid2
      · rw [if_pos h1, if_pos h1]
        have h2 : uid2 = uid := by omega
        by_cases h3 : tt = "PICK" <;> simp [h2, h3]
      · rw [if_neg h1, if_neg h1]
        have h2 : ¬(uid2 = uid ∧ tt = "PICK") := by
          intro hx
          exact h1 (by omega)
        simp [h2]
    · rw [if_neg hc]
      simp only [getPicks]
      by_cases h1 : c.uid = uid2
      · rw [if_pos h1, if_pos h1]
        have h2 : ¬(uid2 = uid ∧ tt = "PICK") := by
          intro hx
          exact hc (by omega)
        simp [h2]
      · rw [if_neg h1, if_neg h1]
        exact ih

theorem getDrops_bumpIn (m : List UserCount) (uid : Int) (tt : String)
    (uid2 : Int) :
    getDrops (bumpIn m uid tt) uid2 =
      getDrops m uid2 + (if uid2 = uid ∧ tt = "DROP" then 1 else 0) := by
  induction m with
  | nil =>
    simp only [bumpIn, getDrops]
    by_cases h1 : uid = uid2
    · subst h1
      by_cases h2 : tt = "DROP" <;> simp [h2]
    · have h3 : ¬(uid2 = uid ∧ tt = "DROP") := fun hc => h1 hc.1.symm
      simp [h1, h3]
  | cons c rest ih =>
    simp only [bumpIn]
    by_cases hc : c.uid = uid
    · rw [if_pos hc]
      simp only [getDrops]
      by_cases h1 : c.uid = uid2
      · rw [if_pos h1, if_pos h1]
        have h2 : uid2 = uid := by omega
        by_cases h3 : tt = "DROP" <;> simp [h2, h3]
      · rw [if_neg h1, if_neg h1]
        have h2 : ¬(uid2 = uid ∧ tt = "DROP") := by
          intro hx
          exact h1 (by omega)
        simp [h2]
    · rw [if_neg hc]
      simp only [getDrops]
      by_cases h1 : c.uid = uid2
      · rw [if_pos h1, if_pos h1]
        have h2 : ¬(uid2 = uid ∧ tt = "DROP") := by
          intro hx
          exact hc (by omega)
        simp [h2]
      · rw [if_neg h1, if_neg h1]
        exact ih

theorem mem_getCounts (m : List UserCount) (hnd : (m.map (·.uid)).Nodup) :
    ∀ c ∈ m, getPicks m c.uid = c.picks ∧ getDrops m c.uid = c.drops := by
  induction m with
  | nil => simp
  | cons c0 rest ih =>
    obtain ⟨hhead, htail⟩ := by
      simpa only [List.map_cons, List.nodup_cons] using hnd
    intro c hc
    rcases List.mem_cons.1 hc with hc | hc
    · subst hc
      simp [getPicks, getDrops]
    · have hne : c0.uid ≠ c.uid := by
        intro hx
        exact hhead (List.mem_map.2 ⟨c, hc, hx.symm⟩)
      simp only [getPicks, getDrops, if_neg hne]
      exact ih htail c hc

theorem getPicks_pos_mem (m : List UserCount) (uid : Int)
    (h : 0 < getPicks m uid ∨ 0 < getDrops m uid) :
    ∃ c ∈ m, c.uid = uid := by
  induction m with
  | nil => simp [getPicks, getDrops] at h
  | cons c rest ih =>
    by_cases hc : c.uid = uid
    · exact ⟨c, List.mem_cons_self c rest, hc⟩
    · simp only [getPicks, getDrops, if_neg hc] at h
      obtain ⟨c2, hc2, hu⟩ := ih h
      exact ⟨c2, List.mem_cons_of_mem c hc2, hu⟩

theorem picksOf_cons (t : Task) (rest : List Task) (uid : Int) :
    picksOf (t :: rest) uid =
      (if t.user_id = uid ∧ t.task_type = "PICK" then 1 else 0) +
        picksOf rest uid := by
  simp only [picksOf, List.filter]
  by_cases h : t.user_id = uid ∧ t.task_type = "PICK"
  · have hb : (t.user_id == uid && t.task_type == "PICK") = true := by
      simp [h.1, h.2]
    simp [hb, h]
    omega
  · have hb : (t.user_id == uid && t.task_type == "PICK") = false := by
      rcases not_and_or.1 h with h2 | h2 <;> simp [h2]
    simp [hb, h]

theorem dropsOf_cons (t : Task) (rest : List Task) (uid : Int) :
    dropsOf (t :: rest) uid =
      (if t.user_id = uid ∧ t.task_type = "DROP" then 1 else 0) +
        dropsOf rest uid := by
  simp only [dropsOf, List.filter]
  by_cases h : t.user_id = uid ∧ t.task_type = "DROP"
  · have hb : (t.user_id == uid && t.task_type == "DROP") = true := by
      simp [h.1, h.2]
    simp [hb, h]
    omega
  · have hb : (t.user_id == uid && t.task_type == "DROP") = false := by
      rcases not_and_or.1 h with h2 | h2 <;> simp [h2]
    simp [hb, h]

theorem countUsersFrom_spec (ts : List Task)
    (h : ∀ t ∈ ts, t.task_type = "PICK" ∨ t.task_type = "DROP") :
    ∀ m : List UserCount, (m.map (·.uid)).Nodup →
      ∃ m2, countUsersFrom m ts = .ok m2 ∧ (m2.map (·.uid)).Nodup ∧
        ∀ uid, getPicks m2 uid = getPicks m uid + picksOf ts uid ∧
               getDrops m2 uid = getDrops m uid + dropsOf ts uid := by
  induction ts with
  | nil =>
    intro m hnd
    refine ⟨m, rfl, hnd, ?_⟩
    intro uid
    simp [picksOf, dropsOf]
  | cons t rest ih =>
    intro m hnd
    have htt : t.task_type = "PICK" ∨ t.task_type = "DROP" :=
      h t (List.mem_cons_self t rest)
    have hrest : ∀ u ∈ rest, u.task_type = "PICK" ∨ u.task_type = "DROP" :=
      fun u hu => h u (List.mem_cons_of_mem t hu)
    obtain ⟨m2, hm2, hnd2, hc2⟩ :=
      ih hrest (bumpIn m t.user_id t.task_type) (bumpIn_nodup m _ _ hnd)
    refine ⟨m2, ?_, hnd2, ?_⟩
    · simp only [countUsersFrom, bumpCounts, if_pos htt]
      exact hm2
    · intro uid
      have hp := (hc2 uid).1
      have hd := (hc2 uid).2
      rw [getPicks_bumpIn] at hp
      rw [getDrops_bumpIn] at hd
      rw [hp, hd, picksOf_cons, dropsOf_cons]
      constructor
      · by_cases hx : t.user_id = uid ∧ t.task_type = "PICK"
        · have hx2 : uid = t.user_id ∧ t.task_type = "PICK" := ⟨hx.1.symm, hx.2⟩
          rw [if_pos hx, if_pos hx2]
          omega
        · have hx2 : ¬(uid = t.user_id ∧ t.task_type = "PICK") := by
            intro hy
            exact hx ⟨hy.1.symm, hy.2⟩
          rw [if_neg hx, if_neg hx2]
          omega
      · by_cases hx : t.user_id = uid ∧ t.task_type = "DROP"
        · have hx2 : uid = t.user_id ∧ t.task_type = "DROP" := ⟨hx.1.symm, hx.2⟩
          rw [if_pos hx, if_pos hx2]
          omega
        · have hx2 : ¬(uid = t.user_id ∧ t.task_type = "DROP") := by
            intro hy
            exact hx ⟨hy.1.symm, hy.2⟩
          rw [if_neg hx, if_neg hx2]
          omega

theorem countUsersFrom_error (ts : List Task) (t0 : Task) (h0 : t0 ∈ ts)
    (hbad : ¬(t0.task_type = "PICK" ∨ t0.task_type = "DROP")) :
    ∀ m, ∃ e, countUsersFrom m ts = .error e := by
  induction ts with
  | nil => simp at h0
  | cons t rest ih =>
    intro m
    by_cases htt : t.task_type = "PICK" ∨ t.task_type = "DROP"
    · have h0r : t0 ∈ rest := by
        rcases List.mem_cons.1 h0 with h0 | h0
        · subst h0; exact absurd htt hbad
        · exact h0
      obtain ⟨e, he⟩ := ih h0r (bumpIn m t.user_id t.task_type)
      refine ⟨e, ?_⟩
      simp only [countUsersFrom, bumpCounts, if_pos htt]
      exact he
    · refine ⟨"KeyError: " ++ t.task_type, ?_⟩
      simp only [countUsersFrom, bumpCounts, if_neg htt]

theorem userPairError_some_of (ts : List Task) (m : List UserCount)
    (hc : ∃ c ∈ m, (1 < c.picks ∨ 1 < c.drops) ∧
      ¬((ts.filter (fun t => t.user_id == c.uid)).all
          (fun t => strTruthy t.pair_key)) = true) :
    ∃ msg, userPairError ts m = some msg := by
  induction m with
  | nil => simp at hc
  | cons c0 rest ih =>
    obtain ⟨c, hcmem, hcond, hallf⟩ := hc
    simp only [userPairError]
    by_cases h1 : 1 < c0.picks ∨ 1 < c0.drops
    · rw [if_pos h1]
      by_cases h2 : ((ts.filter (fun t => t.user_id == c0.uid)).all
          (fun t => strTruthy t.pair_key)) = true
      · rw [if_pos h2]
        apply ih
        rcases List.mem_cons.1 hcmem with hcm | hcm
        · subst hcm; exact absurd h2 hallf
        · exact ⟨c, hcm, hcond, hallf⟩
      · rw [if_neg h2]
        exact ⟨pairKeyMsg c0.uid, rfl⟩
    · rw [if_neg h1]
      apply ih
      rcases List.mem_cons.1 hcmem with hcm | hcm
      · subst hcm; exact absurd hcond h1
      · exact ⟨c, hcm, hcond, hallf⟩

/-- Any input hitting one of the whole-build validation conditions — empty
matrix, non-square matrix, vehicle index out of range, task node index out
of range, or (provided every parsed task type is PICK or DROP) a user with
more than one PICK or DROP lacking a full set of truthy pair keys — makes
`_validate_inputs` return a structured message, never an exception. -/
theorem validate_structured (tm : List (List Int)) (vs : List Vehicle)
    (ts : List Task)
    (h : tm = [] ∨ (∃ row ∈ tm, row.length ≠ tm.length) ∨
      (∃ v ∈ vs, v.start_index < 0 ∨ (tm.length : Int) ≤ v.start_index ∨
        v.end_index < 0 ∨ (tm.length : Int) ≤ v.end_index) ∨
      (∃ t ∈ ts, t.node_index < 0 ∨ (tm.length : Int) ≤ t.node_index) ∨
      ((∀ t ∈ ts, t.task_type = "PICK" ∨ t.task_type = "DROP") ∧
       ∃ uid, (1 < picksOf ts uid ∨ 1 < dropsOf ts uid) ∧
         ¬((ts.filter (fun t => t.user_id == uid)).all
             (fun t => strTruthy t.pair_key)) = true)) :
    ∃ msg, _validate_inputs tm vs ts = .ok (some msg) := by
  unfold _validate_inputs
  by_cases he : tm.isEmpty
  · exact ⟨"time_matrix missing", by rw [if_pos he]⟩
  · rw [if_neg he]
    cases hsq : squareError tm.length tm with
    | some e => exact ⟨e, rfl⟩
    | none =>
      by_cases hv : vs.isEmpty
      · exact ⟨"vehicles missing", by rw [if_pos hv]⟩
      · rw [if_neg hv]
        by_cases ht : ts.isEmpty
        · exact ⟨"tasks missing", by rw [if_pos ht]⟩
        · rw [if_neg ht]
          cases hvr : vehicleRangeError tm.length vs with
          | some e => exact ⟨e, rfl⟩
          | none =>
            cases htr : taskRangeError tm.length ts with
            | some e => exact ⟨e, rfl⟩
            | none =>
              have hA4 : (∀ t ∈ ts, t.task_type = "PICK" ∨
                  t.task_type = "DROP") ∧
                  ∃ uid, (1 < picksOf ts uid ∨ 1 < dropsOf ts uid) ∧
                    ¬((ts.filter (fun t => t.user_id == uid)).all
                        (fun t => strTruthy t.pair_key)) = true := by
                rcases h with h | h | h | h | h
                · rw [h] at he; exact absurd rfl he
                · obtain ⟨row, hrow, hlen⟩ := h
                  exact absurd (squareError_none tm.length tm hsq row hrow) hlen
                · obtain ⟨v, hvm, hcond⟩ := h
                  exact absurd hcond (vehicleRangeError_none tm.length vs hvr v hvm)
                · obtain ⟨t, htm, hcond⟩ := h
                  exact absurd hcond (taskRangeError_none tm.length ts htr t htm)
                · exact h
              obtain ⟨htypes, uid, hcount, hall⟩ := hA4
              obtain ⟨m2, hm2, hnd2, hcounts⟩ :=
                countUsersFrom_spec ts htypes [] (by simp)
              have hcu : countUsers ts = .ok m2 := hm2
              rw [hcu]
              have hmem : ∃ c ∈ m2, c.uid = uid := by
                apply getPicks_pos_mem
                have h1 := (hcounts uid).1
                have h2 := (hcounts uid).2
                simp only [getPicks, getDrops] at h1 h2
                omega
              obtain ⟨c, hcm, hcu2⟩ := hmem
              have hcc := mem_getCounts m2 hnd2 c hcm
              have hc : ∃ c ∈ m2, (1 < c.picks ∨ 1 < c.drops) ∧
                  ¬((ts.filter (fun t => t.user_id == c.uid)).all
                      (fun t => strTruthy t.pair_key)) = true := by
                refine ⟨c, hcm, ?_, ?_⟩
                · have h1 := (hcounts c.uid).1
                  have h2 := (hcounts c.uid).2
                  simp only [getPicks, getDrops] at h1 h2
                  rw [hcu2] at hcc h1 h2
                  rcases hcount with hcount | hcount
                  · left; omega
                  · right; omega
                · rw [hcu2]
                  exact hall
              obtain ⟨msg, hmsg⟩ := userPairError_some_of ts m2 hc
              refine ⟨msg, ?_⟩
              simp only [hmsg]

theorem solve_of_validate_msg (p : Payload) (rid : Option Int)
    (s : SolverInput → Option Solution) (msg : String)
    (h : _validate_inputs p.time_matrix p.vehicles (_parse_tasks p) =
      .ok (some msg)) :
    solve_ortools p rid s = .ok (.error msg) := by
  unfold solve_ortools
  simp only [h]

theorem solve_of_validate_error (p : Payload) (rid : Option Int)
    (s : SolverInput → Option Solution) (e : String)
    (h : _validate_inputs p.time_matrix p.vehicles (_parse_tasks p) =
      .error e) :
    solve_ortools p rid s = .error e := by
  unfold solve_ortools
  simp only [h]

/-- C8 (amended): for every input whose time matrix is empty or non-square,
or with a vehicle start/end index or a parsed task node index outside
`[0, n)`, or — provided every parsed task's `task_type` is PICK or DROP —
with a user having more than one PICK or more than one DROP while not all of
that user's tasks carry a truthy pair key, `solve_ortools` returns the
structured error result before ever consulting the solver oracle (the result
is independent of the oracle), and does not raise.  (The proviso is
necessary: a task with an unknown type makes the validator raise `KeyError`
instead, see the counterexample.) -/
theorem C8_amended_theorem (p : Payload) (rid : Option Int)
    (s1 s2 : SolverInput → Option Solution)
    (h : p.time_matrix = [] ∨
      (∃ row ∈ p.time_matrix, row.length ≠ p.time_matrix.length) ∨
      (∃ v ∈ p.vehicles, v.start_index < 0 ∨
        (p.time_matrix.length : Int) ≤ v.start_index ∨ v.end_index < 0 ∨
        (p.time_matrix.length : Int) ≤ v.end_index) ∨
      (∃ t ∈ _parse_tasks p, t.node_index < 0 ∨
        (p.time_matrix.length : Int) ≤ t.node_index) ∨
      ((∀ t ∈ _parse_tasks p, t.task_type = "PICK" ∨ t.task_type = "DROP") ∧
       ∃ uid, (1 < picksOf (_parse_tasks p) uid ∨
           1 < dropsOf (_parse_tasks p) uid) ∧
         ¬(((_parse_tasks p).filter (fun t => t.user_id == uid)).all
             (fun t => strTruthy t.pair_key)) = true)) :
    (∃ msg, solve_ortools p rid s1 = .ok (.error msg)) ∧
    solve_ortools p rid s1 = solve_ortools p rid s2 := by
  obtain ⟨msg, hv⟩ :=
    validate_structured p.time_matrix p.vehicles (_parse_tasks p) h
  refine ⟨⟨msg, solve_of_validate_msg p rid s1 msg hv⟩, ?_⟩
  rw [solve_of_validate_msg p rid s1 msg hv,
    solve_of_validate_msg p rid s2 msg hv]

/-- C9: an empty vehicle list, or a task list from which no task survives
parsing, makes `solve_ortools` return a structured error result without
consulting the solver oracle; when the matrix itself is well-formed the
message is exactly `vehicles missing` / `tasks missing`. -/
theorem C9_theorem (p : Payload) (rid : Option Int)
    (s1 s2 : SolverInput → Option Solution)
    (h : p.vehicles = [] ∨ _parse_tasks p = []) :
    (∃ msg, solve_ortools p rid s1 = .ok (.error msg) ∧
      (p.time_matrix.isEmpty = false →
        squareError p.time_matrix.length p.time_matrix = none →
        msg = if p.vehicles = [] then "vehicles missing"
          else "tasks missing")) ∧
    solve_ortools p rid s1 = solve_ortools p rid s2 := by
  have hv : ∃ msg, _validate_inputs p.time_matrix p.vehicles
      (_parse_tasks p) = .ok (some msg) ∧
      (p.time_matrix.isEmpty = false →
        squareError p.time_matrix.length p.time_matrix = none →
        msg = if p.vehicles = [] then "vehicles missing"
          else "tasks missing") := by
    unfold _validate_inputs
    by_cases he : p.time_matrix.isEmpty
    · exact ⟨"time_matrix missing", by rw [if_pos he],
        fun hne _ => absurd he (by simp [hne])⟩
    · rw [if_neg he]
      cases hsq : squareError p.time_matrix.length p.time_matrix with
      | some e =>
        refine ⟨e, rfl, ?_⟩
        intro _ hn
        exact Option.noConfusion hn
      | none =>
        rcases h with h | h
        · have hvi : p.vehicles.isEmpty = true := by rw [h]; rfl
          refine ⟨"vehicles missing", by rw [if_pos hvi], ?_⟩
          intro _ _
          rw [if_pos h]
        · by_cases hve : p.vehicles.isEmpty
          · have hveq : p.vehicles = [] := by
              cases hpv : p.vehicles
              · rfl
              · rw [hpv] at hve; simp at hve
            refine ⟨"vehicles missing", by rw [if_pos hve], ?_⟩
            intro _ _
            rw [if_pos hveq]
          · rw [if_neg hve]
            have hti : (_parse_tasks p).isEmpty = true := by rw [h]; rfl
            have hveq : ¬p.vehicles = [] := by
              intro hx
              rw [hx] at hve
              exact hve rfl
            refine ⟨"tasks missing", by rw [if_pos hti], ?_⟩
            intro _ _
            rw [if_neg hveq]
  obtain ⟨msg, hvm, hspec⟩ := hv
  refine ⟨⟨msg, solve_of_validate_msg p rid s1 msg hvm, hspec⟩, ?_⟩
  rw [solve_of_validate_msg p rid s1 msg hvm,
    solve_of_validate_msg p rid s2 msg hvm]

def C9_payload : Payload :=
  { time_matrix := [[0]], vehicles := [], tasks := [], buckets := [],
    facility_name := none, date := none }

/-- C9 witness: `C9_theorem` on the concrete empty-fleet payload. -/
theorem C9_witness :
    solve_ortools C9_payload none (fun _ => none) =
      .ok (.error "vehicles missing") := by
  obtain ⟨msg, hm, hspec⟩ :=
    (C9_theorem C9_payload none (fun _ => none) (fun _ => none)
      (Or.inl rfl)).1
  rw [hspec rfl rfl] at hm
  have hv : C9_payload.vehicles = [] := rfl
  rw [if_pos hv] at hm
  exact hm

/-- A payload in C8's claimed failure class — user 1 has two PICK tasks and
no pair keys — that also carries a task of unknown type `LOAD`. -/
def C8_payload : Payload :=
  { time_matrix := [[0, 100], [100, 0]]
    vehicles := [⟨10, none, 4, 0, 0⟩]
    tasks := [⟨1, "PICK", 0, 1, none, (some 1000, some 2000)⟩,
              ⟨2, "PICK", 0, 1, none, (some 1000, some 2000)⟩,
              ⟨3, "LOAD", 1, 2, none, (some 1000, some 2000)⟩]
    buckets := []
    facility_name := none
    date := none }

/-- C8 counterexample: `C8_payload` is in the claimed class (user 1 has two
PICKs and its tasks carry no pair key), yet `solve_ortools` raises a
`KeyError` (an uncaught exception, modeled as `Except.error`) instead of
returning the structured `{status: error}` result: the user-count loop
indexes its inner dict with the unknown type `LOAD`. -/
theorem C8_counterexample :
    (1 < picksOf (_parse_tasks C8_payload) 1) ∧
    (((_parse_tasks C8_payload).filter (fun t => t.user_id == 1)).all
        (fun t => strTruthy t.pair_key)) = false ∧
    solve_ortools C8_payload none (fun _ => none) =
      .error "KeyError: LOAD" := by
  refine ⟨by decide, by decide, by rfl⟩

/-- C8 witness: `C8_amended_theorem` on a concrete empty-matrix payload:
the structured error result, identical under two different oracles. -/
theorem C8_witness :
    (∃ msg, solve_ortools ⟨[], [], [], [], none, none⟩ none (fun _ => none) =
      .ok (.error msg)) ∧
    solve_ortools ⟨[], [], [], [], none, none⟩ none (fun _ => none) =
      solve_ortools ⟨[], [], [], [], none, none⟩ none (fun _ => some ⟨[]⟩) :=
  C8_amended_theorem ⟨[], [], [], [], none, none⟩ none (fun _ => none)
    (fun _ => some ⟨[]⟩) (Or.inl rfl)

/-- A payload with one raw task whose window is missing its start bound and
one fully valid task. -/
def C2_payload : Payload :=
  { time_matrix := [[0, 100], [100, 0]]
    vehicles := [⟨10, none, 4, 0, 0⟩]
    tasks := [⟨1, "PICK", 1, 5, none, (none, some 5)⟩,
              ⟨2, "PICK", 1, 6, none, (some 10000, some 10800)⟩]
    buckets := []
    facility_name := none
    date := none }

/-- C2 counterexample: raw task 1 of `C2_payload` has a window missing its
start bound; the build does NOT reject it with a report: `_parse_tasks`
silently drops it, `_validate_inputs` reports nothing, and the solve
completes with an ok status computed from the surviving task alone. -/
theorem C2_counterexample :
    (∃ t ∈ C2_payload.tasks, t.window.1 = none) ∧
    (_parse_tasks C2_payload).map (·.task_id) = [2] ∧
    _validate_inputs C2_payload.time_matrix C2_payload.vehicles
      (_parse_tasks C2_payload) = .ok none ∧
    solve_ortools C2_payload none (fun _ => some ⟨[⟨0, [], 0⟩]⟩) =
      .ok (.ok none none none 6400 []) := by
  refine ⟨⟨⟨1, "PICK", 1, 5, none, (none, some 5)⟩, by decide, rfl⟩,
    by decide, by rfl, by rfl⟩

/-- C2 (amended): a raw task whose window is missing either bound is
silently dropped by parsing — it leaves no trace in the parsed list and the
whole solve result is unchanged by its removal, with no report.  A task
whose (uppercased) `task_type` is not PICK or DROP survives parsing, and
then — whenever the earlier whole-build checks pass — validation raises an
uncaught `KeyError` rather than producing a report, so the build never
reaches the model (and in particular never treats the task as a zero-demand
stop). -/
theorem C2_amended_theorem :
    (∀ (p : Payload) (ts1 ts2 : List RawTask) (t : RawTask) (rid : Option Int)
       (s : SolverInput → Option Solution),
      t.window.1 = none ∨ t.window.2 = none →
      _parse_tasks { p with tasks := ts1 ++ t :: ts2 } =
        _parse_tasks { p with tasks := ts1 ++ ts2 } ∧
      solve_ortools { p with tasks := ts1 ++ t :: ts2 } rid s =
        solve_ortools { p with tasks := ts1 ++ ts2 } rid s) ∧
    (∀ (p : Payload) (rid : Option Int) (s : SolverInput → Option Solution),
      (∃ t ∈ _parse_tasks p, ¬(t.task_type = "PICK" ∨ t.task_type = "DROP")) →
      p.time_matrix.isEmpty = false →
      squareError p.time_matrix.length p.time_matrix = none →
      p.vehicles.isEmpty = false →
      (_parse_tasks p).isEmpty = false →
      vehicleRangeError p.time_matrix.length p.vehicles = none →
      taskRangeError p.time_matrix.length (_parse_tasks p) = none →
      ∃ e, _validate_inputs p.time_matrix p.vehicles (_parse_tasks p) =
          .error e ∧
        solve_ortools p rid s = .error e) := by
  constructor
  · intro p ts1 ts2 t rid s hbad
    have hnone : parseOne t = none := by
      unfold parseOne
      rcases hw : t.window with ⟨w1, w2⟩
      rcases hbad with hb | hb
      · rw [hw] at hb
        dsimp only at hb
        subst hb
        cases w2 <;> rfl
      · rw [hw] at hb
        dsimp only at hb
        subst hb
        cases w1 <;> rfl
    have hparse : _parse_tasks { p with tasks := ts1 ++ t :: ts2 } =
        _parse_tasks { p with tasks := ts1 ++ ts2 } := by
      unfold _parse_tasks
      dsimp only
      rw [List.filterMap_append, List.filterMap_append,
        List.filterMap_cons_none hnone]
    refine ⟨hparse, ?_⟩
    simp only [solve_ortools, modelOf, hparse]
  · intro p rid s hbad hm hsq hv ht hvr htr
    obtain ⟨t0, ht0, hbad0⟩ := hbad
    obtain ⟨e, he⟩ := countUsersFrom_error (_parse_tasks p) t0 ht0 hbad0 []
    have hce : countUsers (_parse_tasks p) = .error e := he
    have hval : _validate_inputs p.time_matrix p.vehicles (_parse_tasks p) =
        .error e := by
      simp only [_validate_inputs, hm, hsq, hv, ht, hvr, htr, hce,
        Bool.false_eq_true, if_false]
    exact ⟨e, hval, solve_of_validate_error p rid s e hval⟩

/-- C2 witness: `C2_amended_theorem` on concrete inputs: dropping the
missing-bound task of `C2_payload` leaves the parsed list unchanged, and the
`LOAD` task of `C8_payload` makes validation and the solve raise. -/
theorem C2_witness :
    (_parse_tasks { C2_payload with
        tasks := [] ++ (⟨1, "PICK", 1, 5, none, (none, some 5)⟩ : RawTask) ::
          [⟨2, "PICK", 1, 6, none, (some 10000, some 10800)⟩] } =
      _parse_tasks { C2_payload with
        tasks := [] ++ [⟨2, "PICK", 1, 6, none, (some 10000, some 10800)⟩] }) ∧
    (∃ e, _validate_inputs C8_payload.time_matrix C8_payload.vehicles
        (_parse_tasks C8_payload) = .error e ∧
      solve_ortools C8_payload none (fun _ => none) = .error e) := by
  constructor
  · exact (C2_amended_theorem.1 C2_payload []
      [⟨2, "PICK", 1, 6, none, (some 10000, some 10800)⟩]
      ⟨1, "PICK", 1, 5, none, (none, some 5)⟩ none (fun _ => none)
      (Or.inl rfl)).1
  · exact C2_amended_theorem.2 C8_payload none (fun _ => none)
      ⟨⟨3, "LOAD", 1, 2, none, 1000, 2000⟩, by decide, by decide⟩
      rfl rfl rfl rfl rfl rfl

/-- The C7 failing input: three tasks sharing pair key `K` — two PICKs
(tasks 1 and 2) and one DROP (task 3). -/
def C7_tasks : List Task :=
  [⟨1, "PICK", 0, 1, some "K", 1000, 2000⟩,
   ⟨2, "PICK", 0, 2, some "K", 1000, 2000⟩,
   ⟨3, "DROP", 0, 3, some "K", 1000, 2000⟩]

/-- C7: evaluating the pairing builder at the failing input: pair key `K`
has TWO PICKs (not exactly one), yet the code still adds a pairing
constraint — `by_key[K]["PICK"]` is silently overwritten by the last PICK,
so the pair (task-node of task 2, task-node of task 3) is emitted, although
the docstring and spec require exactly one PICK and one DROP per key. -/
theorem C7_theorem :
    _build_pairs_by_pair_key C7_tasks (taskRnodeOfTaskId C7_tasks 1) =
      [(2, 3)] ∧
    (C7_tasks.filter (fun t => t.pair_key == some "K" &&
      t.task_type == "PICK")).length = 2 := by
  exact ⟨by decide, by decide⟩

end GioireRouting
